import Mathlib

set_option maxRecDepth 100000

/-!
Shallow embedding of the storage and ACL core of the mail server:
the transactional writer and id allocator
(`crates/store/src/backend/foundationdb/write.rs`), the blob store facade
(`crates/store/src/dispatch/blob.rs`) and the ACL engine
(`crates/jmap/src/auth/acl.rs`), together with theorems about them.
-/

instance {ε α : Type} [DecidableEq ε] [DecidableEq α] : DecidableEq (Except ε α) := fun a b =>
  match a, b with
  | .error e1, .error e2 => decidable_of_iff (e1 = e2) (by simp)
  | .ok a1, .ok a2 => decidable_of_iff (a1 = a2) (by simp)
  | .error _, .ok _ => isFalse fun h => Except.noConfusion h
  | .ok _, .error _ => isFalse fun h => Except.noConfusion h

/-- Byte strings are lists of naturals (each entry a byte value). -/
abbrev Bytes := List Nat

/-- Big-endian encoding of `n` on `w` bytes (the low `8*w` bits of `n`). -/
def beBytes : Nat → Nat → Bytes
  | 0, _ => []
  | w + 1, n => beBytes w (n / 256) ++ [n % 256]

/-- 32-bit big-endian encoding. -/
def be4 (n : Nat) : Bytes := beBytes 4 n

/-- 64-bit big-endian encoding. -/
def be8 (n : Nat) : Bytes := beBytes 8 n

/-- `u32::MAX`, the "unset" sentinel of the writer's scope. -/
def u32Max : Nat := 2 ^ 32 - 1

/-- `u8::MAX`, the "unset" sentinel for the collection scope. -/
def u8Max : Nat := 2 ^ 8 - 1

/-- `usize::MAX`, used by the blob facade as an unbounded range end. -/
def usizeMax : Nat := 2 ^ 64 - 1

/-- Modelled from the spec: the key subspaces have distinct one-byte
prefixes (`SUBSPACE_VALUES`, Index, Bitmap, Acl, Log); the crate that
declares the prefix constants is not under `src/`. -/
def SUBSPACE_VALUES : Nat := 0

/-- Modelled from the spec: one-byte prefix of the Index subspace. -/
def SUBSPACE_INDEXES : Nat := 1

/-- Modelled from the spec: one-byte prefix of the Bitmap subspace. -/
def SUBSPACE_BITMAPS : Nat := 2

/-- Modelled from the spec: one-byte prefix of the Acl subspace. -/
def SUBSPACE_ACLS : Nat := 3

/-- Modelled from the spec: one-byte prefix of the Log subspace. -/
def SUBSPACE_LOGS : Nat := 4

/-- Modelled from the spec: `ValueKey::serialize`, layout
`(account_id, collection, document_id, family, field)` with fixed-width
big-endian integers (`write/key.rs` is not under `src/`). -/
def valueKeySer (accountId collection documentId family field : Nat) : Bytes :=
  SUBSPACE_VALUES :: (be4 accountId ++ collection :: be4 documentId ++ [family, field])

/-- Modelled from the spec: `IndexKey::serialize`, layout
`(account_id, collection, field, key_bytes, document_id)`. -/
def indexKeySer (accountId collection field : Nat) (key : Bytes) (documentId : Nat) : Bytes :=
  SUBSPACE_INDEXES :: (be4 accountId ++ collection :: field :: key ++ be4 documentId)

/-- Modelled from the spec: `BitmapKey::serialize`, layout
`(account_id, collection, family, field, key_bytes, block_num)`. -/
def bitmapKeySer (accountId collection family field : Nat) (key : Bytes) (blockNum : Nat) :
    Bytes :=
  SUBSPACE_BITMAPS :: (be4 accountId ++ collection :: family :: field :: key ++ be4 blockNum)

/-- Modelled from the spec: `AclKey::serialize`, layout
`(grant_account_id, to_account_id, to_collection, to_document_id)`. -/
def aclKeySer (grantAccountId toAccountId toCollection toDocumentId : Nat) : Bytes :=
  SUBSPACE_ACLS :: (be4 grantAccountId ++ be4 toAccountId ++ toCollection :: be4 toDocumentId)

/-- Modelled from the spec: `LogKey::serialize`, layout
`(account_id, collection, change_id)`. -/
def logKeySer (accountId collection changeId : Nat) : Bytes :=
  SUBSPACE_LOGS :: (be4 accountId ++ collection :: be8 changeId)

/-- Modelled from the spec: `BITS_PER_BLOCK`, the number of bits of one
128-byte dense bitmap block (`backend/foundationdb/bitmap.rs` is not under
`src/`). -/
def BITS_PER_BLOCK : Nat := 1024

/-- `DenseBitmap::block_num`: the block covering a document id. -/
def blockNumOf (documentId : Nat) : Nat := documentId / BITS_PER_BLOCK

/-- The bit index of a document id within its block. -/
def bitOf (documentId : Nat) : Nat := documentId % BITS_PER_BLOCK

/-- The batch operation sum of the public write API
(`Operation` in `write.rs`); the `AssertValue` matcher is embedded as a
predicate on the stored bytes. -/
inductive Operation where
  | accountId (accountId : Nat)
  | collection (collection : Nat)
  | documentId (documentId : Nat)
  | value (family field : Nat) (set : Option Bytes)
  | index (field : Nat) (key : Bytes) (set : Bool)
  | bitmap (family field : Nat) (key : Bytes) (set : Bool)
  | acl (grantAccountId : Nat) (set : Option Bytes)
  | log (collection : Nat) (changeId : Nat) (set : Bytes)
  | assertValue (field family : Nat) (assertMatches : Bytes → Bool)

/-- The ordered key/value store under the writer: plain values, an
injected read-fault set (backend read errors), and per-key dense bitmap
blocks (one `Finset` of bit indices per serialized bitmap key). -/
structure StoreState where
  values : Bytes → Option Bytes
  readFault : Bytes → Bool
  bitmaps : Bytes → Finset Nat

/-- Association-list lookup on serialized keys (first match wins). -/
def assocLookup {α : Type} : List (Bytes × α) → Bytes → Option α
  | [], _ => none
  | (k0, v) :: rest, k => if k0 = k then some v else assocLookup rest k

/-- The `set_bitmaps` / `clear_bitmaps` accumulators: serialized bitmap
key to accumulated `DenseBitmap` (set of bit indices). -/
abbrev BmAcc := List (Bytes × Finset Nat)

/-- `entry(key).or_insert_with(DenseBitmap::empty).set(bit)`: add one bit
to the accumulator block of `k`, inserting an empty block if absent. -/
def bmInsert : BmAcc → Bytes → Nat → BmAcc
  | [], k, b => [(k, {b})]
  | (k0, s) :: rest, k, b =>
    if k0 = k then (k0, insert b s) :: rest else (k0, s) :: bmInsert rest k b

/-- The accumulated block at a key (empty when absent). -/
def bmGet (m : BmAcc) (k : Bytes) : Finset Nat := (assocLookup m k).getD ∅

/-- In-flight transaction and accumulator state while replaying a batch:
the implicit scope, the buffered `trx.set`/`trx.clear` writes
(`some v` = set, `none` = clear; later writes are prepended) and the two
bitmap accumulators. -/
structure ReplaySt where
  accountId : Nat
  collection : Nat
  documentId : Nat
  writes : List (Bytes × Option Bytes)
  setBitmaps : BmAcc
  clearBitmaps : BmAcc

instance : DecidableEq ReplaySt := fun a b =>
  decidable_of_iff
    (a.accountId = b.accountId ∧ a.collection = b.collection ∧ a.documentId = b.documentId ∧
      a.writes = b.writes ∧ a.setBitmaps = b.setBitmaps ∧ a.clearBitmaps = b.clearBitmaps)
    (by cases a; cases b; simp)

/-- Initial replay state of one attempt: unset scope sentinels, no
buffered writes, and the (retry-surviving) accumulators passed in. -/
def initReplay (sb cb : BmAcc) : ReplaySt :=
  { accountId := u32Max, collection := u8Max, documentId := u32Max
    writes := [], setBitmaps := sb, clearBitmaps := cb }

/-- `trx.get(key, false)`: a read-your-writes transactional read; a key
covered by the transaction's own buffer is served from it, otherwise the
backend is read and may fail. -/
def trxGet (store : StoreState) (writes : List (Bytes × Option Bytes)) (k : Bytes) :
    Except Unit (Option Bytes) :=
  match assocLookup writes k with
  | some w => .ok w
  | none => if store.readFault k then .error () else .ok (store.values k)

/-- One step of the batch replay loop of `Store::write` (the `match op`
body). `isFirst` is `retry_count == 0`; the only fallible step is
`AssertValue`, whose read error is swallowed by `.unwrap_or_default()`. -/
def applyOp (store : StoreState) (isFirst : Bool) (st : ReplaySt) :
    Operation → Except Unit ReplaySt
  | .accountId a => .ok { st with accountId := a }
  | .collection c => .ok { st with collection := c }
  | .documentId d => .ok { st with documentId := d }
  | .value family field set =>
    .ok { st with writes :=
      (valueKeySer st.accountId st.collection st.documentId family field, set) :: st.writes }
  | .index field key set =>
    .ok { st with writes :=
      (indexKeySer st.accountId st.collection field key st.documentId,
        if set then some [] else none) :: st.writes }
  | .bitmap family field key set =>
    if isFirst then
      let k := bitmapKeySer st.accountId st.collection family field key
        (blockNumOf st.documentId)
      if set then .ok { st with setBitmaps := bmInsert st.setBitmaps k (bitOf st.documentId) }
      else .ok { st with clearBitmaps := bmInsert st.clearBitmaps k (bitOf st.documentId) }
    else .ok st
  | .acl grantAccountId set =>
    .ok { st with writes :=
      (aclKeySer grantAccountId st.accountId st.collection st.documentId, set) :: st.writes }
  | .log collection changeId payload =>
    .ok { st with writes := (logKeySer st.accountId collection changeId, some payload) :: st.writes }
  | .assertValue field family m =>
    let k := valueKeySer st.accountId st.collection st.documentId family field
    let cur : Option Bytes := match trxGet store st.writes k with
      | .ok v => v
      | .error _ => none
    match cur with
    | none => .error ()
    | some bytes => if m bytes then .ok st else .error ()

/-- Replay of a batch suffix: `for op in &batch.ops { ... }`; an error is
a failed `AssertValue` (the transaction is cancelled). -/
def replayAux (store : StoreState) (isFirst : Bool) : List Operation → ReplaySt →
    Except Unit ReplaySt
  | [], st => .ok st
  | op :: rest, st =>
    match applyOp store isFirst st op with
    | .error e => .error e
    | .ok st' => replayAux store isFirst rest st'

/-- Symmetric difference of bitmap blocks: the effect of an atomic
`BitXor` merge on a stored block. -/
def fsXor (s t : Finset Nat) : Finset Nat := (s \ t) ∪ (t \ s)

/-- Emit one atomic merge per accumulator entry, combining the stored
block with the accumulated block through `f`. -/
def applyBm (f : Finset Nat → Finset Nat → Finset Nat) (b : Bytes → Finset Nat) (m : BmAcc) :
    Bytes → Finset Nat :=
  m.foldl (fun g e => Function.update g e.1 (f (g e.1) e.2)) b

/-- Commit: publish the buffered writes, then the atomic `BitOr` merges of
`set_bitmaps` and the atomic `BitXor` merges of `clear_bitmaps`. -/
def commitSt (store : StoreState) (st : ReplaySt) : StoreState :=
  { values := fun k => (assocLookup st.writes k).getD (store.values k)
    readFault := store.readFault
    bitmaps := applyBm fsXor (applyBm (· ∪ ·) store.bitmaps st.setBitmaps) st.clearBitmaps }

/-- Errors surfaced by `Store::write`. -/
inductive WError where
  | assertValueFailed
  | backend
deriving DecidableEq

/-- `MAX_COMMIT_ATTEMPTS` (non-test build). -/
def MAX_COMMIT_ATTEMPTS : Nat := 10

/-- The retry loop of `Store::write`. `cf rc` tells whether the commit of
attempt `rc` hits a retryable conflict (an oracle for the backend);
the wall-clock bound `MAX_COMMIT_TIME` is not modelled (treated as never
exceeded). On an `AssertValue` failure the transaction is cancelled and
the error returned at once; the store component of the result is the
store as the caller can observe it afterwards (unchanged unless a commit
succeeded). The accumulators survive retries. The fuel argument only
bounds the recursion; `write` supplies `MAX_COMMIT_ATTEMPTS + 1`, which
the `rc < MAX_COMMIT_ATTEMPTS` guard never exhausts. -/
def writeGo (cf : Nat → Bool) (batch : List Operation) (store : StoreState) :
    Nat → Nat → BmAcc → BmAcc → Except WError Unit × StoreState
  | _, 0, _, _ => (.error .backend, store)
  | rc, fuel + 1, sb, cb =>
    match replayAux store (rc == 0) batch (initReplay sb cb) with
    | .error _ => (.error .assertValueFailed, store)
    | .ok st =>
      if cf rc then
        if rc < MAX_COMMIT_ATTEMPTS then
          writeGo cf batch store (rc + 1) fuel st.setBitmaps st.clearBitmaps
        else (.error .backend, store)
      else (.ok (), commitSt store st)

/-- `Store::write(batch)`: start at `retry_count = 0` with empty
accumulators. -/
def write (cf : Nat → Bool) (batch : List Operation) (store : StoreState) :
    Except WError Unit × StoreState :=
  writeGo cf batch store 0 (MAX_COMMIT_ATTEMPTS + 1) [] []

/-- Modelled from the spec: bit `i` of a stored 128-byte bitmap block
(bit order within a byte is least-significant first; `bitmap.rs` is not
under `src/`). -/
def blockBit (blockBytes : Bytes) (i : Nat) : Bool :=
  (blockBytes.getD (i / 8) 0).testBit (i % 8)

/-- Modelled from the spec: `next_available_index(block_bytes, block_num,
reserved_ids)` scans a stored block for the lowest zero bit whose global
id is not in `reserved_ids`. -/
def nextAvailableIndex (blockBytes : Bytes) (blockNum : Nat) (reservedIds : List Nat) :
    Option Nat :=
  ((List.range BITS_PER_BLOCK).find? fun i =>
      !blockBit blockBytes i && decide (blockNum * BITS_PER_BLOCK + i ∉ reservedIds)).map
    fun i => blockNum * BITS_PER_BLOCK + i

/-- Partition of the scanned reservation rows `(document_id, timestamp)`
into expired ids (`timestamp ≤ cutoff`, in scan order) and still-live
reserved ids. -/
def partitionRes : List (Nat × Nat) → Nat → List Nat × List Nat
  | [], _ => ([], [])
  | (d, ts) :: rest, cutoff =>
    let p := partitionRes rest cutoff
    if ts ≤ cutoff then (d :: p.1, p.2) else (p.1, d :: p.2)

/-- The `'outer` scan over the document-ids bitmap blocks: first block
with an available index wins. -/
def scanBlocks : List (Nat × Bytes) → List Nat → Option Nat
  | [], _ => none
  | (bn, bytes) :: rest, reservedIds =>
    match nextAvailableIndex bytes bn reservedIds with
    | some id => some id
    | none => scanBlocks rest reservedIds

/-- The last-resort loop `for document_id_ in 0..BITS_PER_BLOCK`: the
first id starting at `s` (with `fuel` ids left to try) not in
`reservedIds`; the pre-set default `1024` when the loop exhausts. -/
def firstFreeFrom (reservedIds : List Nat) : Nat → Nat → Nat
  | _, 0 => 1024
  | s, fuel + 1 => if s ∈ reservedIds then firstFreeFrom reservedIds (s + 1) fuel else s

/-- One attempt of `Store::assign_document_id`, with the transactional
range scans supplied as lists in key order: `rows` are the reservation
rows `(document_id, timestamp)` of the `field = 0xFF` index subrange,
`blocks` the document-ids bitmap blocks `(block_num, bytes)`, `nowT` the
current time, `expiry` `ID_ASSIGNMENT_EXPIRY`, and `r` the random oracle
for the expired-id pick. -/
def assignDocumentId (rows : List (Nat × Nat)) (blocks : List (Nat × Bytes))
    (nowT expiry r : Nat) : Nat :=
  let p := partitionRes rows (nowT - expiry)
  let expiredIds := p.1
  let reservedIds := p.2
  let d1 : Nat :=
    if expiredIds.length ≠ 0 then expiredIds.getD (r % expiredIds.length) 0
    else (scanBlocks blocks reservedIds).getD u32Max
  if d1 = u32Max then firstFreeFrom reservedIds 0 BITS_PER_BLOCK else d1

/-- The reservation write of `assign_document_id`: set the reservation
row of the chosen id to `now()`, keeping the rows sorted by document id
(the order the next range scan returns them in). -/
def insertRow : List (Nat × Nat) → Nat → Nat → List (Nat × Nat)
  | [], d, ts => [(d, ts)]
  | (d0, t0) :: rest, d, ts =>
    if d < d0 then (d, ts) :: (d0, t0) :: rest
    else if d = d0 then (d, ts) :: rest
    else (d0, t0) :: insertRow rest d ts

/-- The compression property of a blob facade (`CompressionAlgo`). -/
inductive CompressionAlgo where
  | none
  | lz4
deriving DecidableEq

/-- `CompressionAlgo::marker`: `MAGIC_MARKER | 0x01 = 0xa1` for Lz4. -/
def CompressionAlgo.marker : CompressionAlgo → Nat
  | .lz4 => 0xa0 ||| 0x01
  | .none => 0

/-- The external `lz4_flex` codec, abstracted: `compress` is
`compress_prepend_size` and `decompress` is `decompress_size_prepended`
(`none` = decompression error). -/
structure Codec where
  compress : Bytes → Bytes
  decompress : Bytes → Option Bytes

/-- A backend blob read honoring a byte range, for a backend that stores
bytes verbatim: the stored blob clamped to `[rstart, rend)`. -/
def backendGet (blobs : Bytes → Option Bytes) (key : Bytes) (rstart rend : Nat) :
    Option Bytes :=
  (blobs key).map fun data => (data.take rend).drop rstart

/-- Rust `slice.get(start..end).unwrap_or_default()`: the subslice when
the range is valid, the empty slice otherwise. -/
def rustSliceD (data : Bytes) (rstart rend : Nat) : Bytes :=
  if rstart ≤ rend ∧ rend ≤ data.length then (data.take rend).drop rstart else []

/-- Blob facade errors: `Decompress` is an LZ4 framing mismatch. -/
inductive BlobError where
  | decompressFailed
deriving DecidableEq

/-- `BlobStore::get_blob`: under `None` compression the range is passed to
the backend and the result returned as is; under `Lz4` the whole blob
(`0..usize::MAX`) is read, the one-byte tail marker checked (raw bytes
are returned with a debug trace when it is absent), the prefix
decompressed, and the requested range applied in memory only when
`range.end < decompressed.len()`. -/
def getBlob (compression : CompressionAlgo) (codec : Codec) (blobs : Bytes → Option Bytes)
    (key : Bytes) (rstart rend : Nat) : Except BlobError (Option Bytes) :=
  match compression with
  | .none => .ok (backendGet blobs key rstart rend)
  | .lz4 =>
    match backendGet blobs key 0 usizeMax with
    | Option.none => .ok Option.none
    | some data =>
      let afterMarker : Except BlobError Bytes :=
        if (data.getLast?).getD 0 = CompressionAlgo.lz4.marker then
          match codec.decompress data.dropLast with
          | some d => .ok d
          | Option.none => .error .decompressFailed
        else .ok data
      match afterMarker with
      | .error e => .error e
      | .ok d =>
        if d.length ≤ rend then .ok (some d) else .ok (some (rustSliceD d rstart rend))

/-- `BlobStore::put_blob`: the bytes handed to the backend — raw under
`None`, `compress_prepend_size(data) ‖ 0xa1` under `Lz4`. -/
def putData (compression : CompressionAlgo) (codec : Codec) (data : Bytes) : Bytes :=
  match compression with
  | .none => data
  | .lz4 => codec.compress data ++ [CompressionAlgo.lz4.marker]

/-- The backend blob map after `put_blob(key, data)` on a verbatim
backend. -/
def putBlob (compression : CompressionAlgo) (codec : Codec) (blobs : Bytes → Option Bytes)
    (key : Bytes) (data : Bytes) : Bytes → Option Bytes :=
  fun k => if k = key then some (putData compression codec data) else blobs k

/-- Modelled from the spec: `utils::map::bitmap::Bitmap<Acl>` (external to
`src/`) is a u64 bitmap of rights, modelled as a finite set of bit
indices; `pop` removes and returns one set bit (the lowest here). -/
def popLow (s : Finset Nat) : Nat := s.fold min (s.fold max 0 id) id

/-- `AclGrant`: one grant entry `(account_id, grants)` of a document's ACL
property. -/
structure AclGrant where
  account_id : Nat
  grants : Finset Nat

instance : DecidableEq AclGrant := fun a b =>
  decidable_of_iff (a.account_id = b.account_id ∧ a.grants = b.grants)
    (by cases a; cases b; simp)

/-- `iter().find(|item| item.account_id == a)`: the first grant entry of
an account. -/
def aclFind : List AclGrant → Nat → Option AclGrant
  | [], _ => none
  | x :: xs, a => if x.account_id = a then some x else aclFind xs a

/-- `iter_mut().find(...)` followed by an assignment of the found entry's
grants: replace the grants of the first entry of account `a` (no change
when absent). -/
def updateGrantsFirst : List AclGrant → Nat → Finset Nat → List AclGrant
  | [], _, _ => []
  | x :: xs, a, g =>
    if x.account_id = a then { account_id := a, grants := g } :: xs
    else x :: updateGrantsFirst xs a g

/-- The `MaybePatchValue::Patch` arm of `acl_set` (acl.rs lines 287-317),
applied to the ACL grant list it operates on (`changes.Acl`, or a copy of
`current.Acl`), after `map_acl_patch` resolved the patch into an
`AclGrant` and an optional update flag. -/
def aclSetPatch (acl : List AclGrant) (patch : AclGrant) (op : Option Bool) :
    List AclGrant :=
  match op with
  | some isSet =>
    if patch.grants = ∅ then acl
    else
      match aclFind acl patch.account_id with
      | some item =>
        let popped := popLow patch.grants
        if isSet then updateGrantsFirst acl patch.account_id (insert popped item.grants)
        else
          let g' := item.grants.erase popped
          if g' = ∅ then
            (updateGrantsFirst acl patch.account_id g').filter
              fun x => x.account_id ≠ patch.account_id
          else updateGrantsFirst acl patch.account_id g'
      | none => if isSet then acl ++ [patch] else acl
  | none =>
    if patch.grants = ∅ then acl.filter fun x => x.account_id ≠ patch.account_id
    else
      match aclFind acl patch.account_id with
      | some _ => updateGrantsFirst acl patch.account_id patch.grants
      | none => acl ++ [patch]

/-- The grants the claims' descriptions predict for the patched account
after `acl_set` on a `Patch`, given the account's previous grants
(`none` = no entry). This is the code's behaviour: with an explicit
update flag and an existing entry, exactly one popped bit is added or
removed. -/
def patchedEntry (old : Option (Finset Nat)) (g : Finset Nat) (op : Option Bool) :
    Option (Finset Nat) :=
  match op with
  | some isSet =>
    if g = ∅ then old
    else
      match old with
      | some og =>
        if isSet then some (insert (popLow g) og)
        else if og.erase (popLow g) = ∅ then none else some (og.erase (popLow g))
      | none => if isSet then some g else none
  | none => if g = ∅ then none else some g

/-- The `invalidate` flag of `refresh_acls` for one entry: scan the other
list for the same account (first match breaks the loop) and compare
grants; missing accounts always invalidate. -/
def invalidateFor (item : AclGrant) (other : List AclGrant) : Bool :=
  match aclFind other item.account_id with
  | some x => decide (x.grants ≠ item.grants)
  | none => true

/-- The set of principals `refresh_acls` signals for an old/new pair of
grant lists: both symmetric passes of acl.rs lines 375-407, accumulated
into the `ChangedPrincipals` set. -/
def refreshSignalled (aclCurrent aclChanges : List AclGrant) : Finset Nat :=
  ((aclCurrent.filter fun c => invalidateFor c aclChanges).map AclGrant.account_id).toFinset ∪
    ((aclChanges.filter fun c => invalidateFor c aclCurrent).map AclGrant.account_id).toFinset

/-- At most one grant entry per account id (the spec's ACL invariant). -/
def nodupAccounts (acl : List AclGrant) : Prop := (acl.map AclGrant.account_id).Nodup

/-- The slice of `jmap_proto::types::value::Value` (external to `src/`)
that `map_acl_patch` inspects. -/
inductive JValue where
  | text (s : String)
  | uint (n : Nat)
  | boolean (b : Bool)
  | null
deriving DecidableEq

/-- `Value::as_bool`: `Some` only for the boolean variant. -/
def JValue.asBool : JValue → Option Bool
  | .boolean b => some b
  | _ => none

/-- Outcome of a directory principal lookup by name:
`found id`, unknown principal, or a temporary directory error. -/
inductive DirResult where
  | found (id : Nat)
  | notFound
  | err
deriving DecidableEq

/-- The structured `SetError`s of the ACL helpers: `invalidAclValue` is
`invalid_properties` with "Invalid ACL value found.", `accountNotFound`
is `invalid_properties` with "Account ... does not exist.",
`forbiddenLookup` is `forbidden` with the temporary-failure text. -/
inductive SetErr where
  | invalidAclValue
  | accountNotFound (name : String)
  | forbiddenLookup
deriving DecidableEq

/-- `Bitmap::from(grants: u64)`: the set bits of the grant mask. -/
def maskToFinset (n : Nat) : Finset Nat := (Finset.range 64).filter (n.testBit · = true)

/-- `map_acl_patch(acl_patch)`: the outer `none` is a Rust panic — the
code indexes `acl_patch[0]` and `acl_patch[1]` unconditionally, so a
vector with fewer than two elements dies on an out-of-bounds access
before any error can be produced. -/
def mapAclPatch (dir : String → DirResult) (aclPatch : List JValue) :
    Option (Except SetErr (AclGrant × Option Bool)) :=
  match aclPatch.get? 0, aclPatch.get? 1 with
  | some (.text name), some (.uint grants) =>
    some (match dir name with
      | .found id =>
        .ok ({ account_id := id, grants := maskToFinset grants },
          (aclPatch.get? 2).map fun v => v.asBool.getD false)
      | .notFound => .error (.accountNotFound name)
      | .err => .error .forbiddenLookup)
  | some _, some _ => some (.error .invalidAclValue)
  | _, _ => none

/-- The effect of one operation on the implicit `(account_id, collection,
document_id)` scope (only the three scope operations change it). -/
def scopeStep (s : Nat × Nat × Nat) : Operation → Nat × Nat × Nat
  | .accountId a => (a, s.2.1, s.2.2)
  | .collection c => (s.1, c, s.2.2)
  | .documentId d => (s.1, s.2.1, d)
  | _ => s

/-- The scope after replaying a batch prefix (pure: independent of the
store). -/
def scopeFold (ops : List Operation) (s : Nat × Nat × Nat) : Nat × Nat × Nat :=
  ops.foldl scopeStep s

/-- The initial scope sentinels of one write attempt. -/
def initScope : Nat × Nat × Nat := (u32Max, u8Max, u32Max)

/-- The bitmap operations of a batch as the replay sees them: for each
`Bitmap` op, its set/clear flag, the serialized bitmap key and the bit
index, computed at the scope in force at the op. -/
def bitmapOpsFrom (s : Nat × Nat × Nat) : List Operation → List (Bool × Bytes × Nat)
  | [] => []
  | .bitmap family field key set :: rest =>
    (set, bitmapKeySer s.1 s.2.1 family field key (blockNumOf s.2.2), bitOf s.2.2) ::
      bitmapOpsFrom s rest
  | op :: rest => bitmapOpsFrom (scopeStep s op) rest

/-- The bitmap operations of a whole batch. -/
def bitmapOpsOf (batch : List Operation) : List (Bool × Bytes × Nat) :=
  bitmapOpsFrom initScope batch

/-- The keys of a bitmap accumulator. -/
def bmKeys (m : BmAcc) : List Bytes := m.map Prod.fst

/-- The slice the claims' wording predicts for `get_blob` with a range:
`decompressed[range.start..range.end]` clamped to the decompressed
length. This follows the spec's words, for comparison with `getBlob`. -/
def specSlice (d : Bytes) (rstart rend : Nat) : Bytes :=
  (d.take (min rend d.length)).drop rstart

/-- Whether the first two elements of an ACL patch vector exist and are a
`(Text, UnsignedInt)` pair. -/
def isNamePair (l : List JValue) : Bool :=
  match l.get? 0, l.get? 1 with
  | some (.text _), some (.uint _) => true
  | _, _ => false

/-- Scope plus transaction-buffer agreement between two replay states
(everything but the bitmap accumulators). -/
def ScopeW (st1 st2 : ReplaySt) : Prop :=
  st1.accountId = st2.accountId ∧ st1.collection = st2.collection ∧
    st1.documentId = st2.documentId ∧ st1.writes = st2.writes

/-- Agreement of two replay outcomes: both fail, or both succeed with
agreeing scope and buffered writes. -/
def AgreeE : Except Unit ReplaySt → Except Unit ReplaySt → Prop
  | .ok r1, .ok r2 => ScopeW r1 r2
  | .error _, .error _ => True
  | _, _ => False

/-- An empty store: no values, no read faults, no bitmap blocks. -/
def emptyStore : StoreState :=
  { values := fun _ => none, readFault := fun _ => false, bitmaps := fun _ => ∅ }

/-- A store whose backend fails every read. -/
def faultyStore : StoreState :=
  { values := fun _ => none, readFault := fun _ => true, bitmaps := fun _ => ∅ }

/-- A commit oracle under which every commit succeeds. -/
def noConflict : Nat → Bool := fun _ => false

/-- The batch of the C3 counterexample: one set and one clear of the same
`(bitmap key, document id)` in one batch. -/
def cexBatchC3 : List Operation :=
  [.accountId 1, .collection 2, .documentId 5, .bitmap 3 4 [] true, .bitmap 3 4 [] false]

/-- The accumulator state after replaying the C3 counterexample batch. -/
def cexStC3 : ReplaySt :=
  match replayAux emptyStore true cexBatchC3 (initReplay [] []) with
  | .ok st => st
  | .error _ => initReplay [] []

/-- The serialized bitmap key the C3 counterexample batch touches. -/
def cexKeyC3 : Bytes := bitmapKeySer 1 2 3 4 [] 0

/-- A concrete codec with the size-prepended shape of `lz4_flex`:
`compress` prepends a 4-byte header, `decompress` strips it (failing on
inputs shorter than the header, as `decompress_size_prepended` does);
`decompress (compress v) = some v` holds for every `v`. -/
def testCodec : Codec :=
  { compress := fun v => [0, 0, 0, 0] ++ v
    decompress := fun b => if b.length ≥ 4 then some (b.drop 4) else none }

/-- A backend holding one compressed blob (marker `0xa1` at the tail). -/
def blobsC5 : Bytes → Option Bytes :=
  fun k => if k = [1] then some [0, 0, 0, 0, 10, 20, 30, 161] else none

/-- A backend holding one legacy (uncompressed) blob whose last byte
coincides with the LZ4 marker. -/
def blobsC6 : Bytes → Option Bytes :=
  fun k => if k = [9] then some [0, 0, 0, 0, 161] else none

/-- A directory that knows no principal. -/
def dirNone : String → DirResult := fun _ => .notFound

theorem bmGet_nil (k : Bytes) : bmGet [] k = ∅ := rfl

theorem bmGet_cons (k0 : Bytes) (s : Finset Nat) (rest : BmAcc) (k : Bytes) :
    bmGet ((k0, s) :: rest) k = if k0 = k then s else bmGet rest k := by
  by_cases h : k0 = k <;> simp [bmGet, assocLookup, h]

theorem bmInsert_cons_ne {k0 k : Bytes} (h : ¬k0 = k) (s : Finset Nat) (rest : BmAcc) (d : Nat) :
    bmInsert ((k0, s) :: rest) k d = (k0, s) :: bmInsert rest k d := by
  simp [bmInsert, h]

theorem mem_bmGet_bmInsert (m : BmAcc) (k : Bytes) (d : Nat) (k' : Bytes) (x : Nat) :
    x ∈ bmGet (bmInsert m k d) k' ↔ x ∈ bmGet m k' ∨ (k' = k ∧ x = d) := by
  induction m with
  | nil =>
    rcases eq_or_ne k k' with h | h
    · subst h
      simp [bmInsert, bmGet_cons, bmGet_nil]
    · have h' : k' ≠ k := Ne.symm h
      simp [bmInsert, bmGet_cons, bmGet_nil, h, h']
  | cons e rest ih =>
    obtain ⟨k0, s⟩ := e
    by_cases h0 : k0 = k
    · subst h0
      have hins : bmInsert ((k0, s) :: rest) k0 d = (k0, insert d s) :: rest := by
        simp [bmInsert]
      by_cases h1 : k0 = k'
      · subst h1
        rw [hins, bmGet_cons, if_pos rfl, bmGet_cons, if_pos rfl]
        simp [Finset.mem_insert, or_comm]
      · rw [hins, bmGet_cons, if_neg h1, bmGet_cons, if_neg h1]
        constructor
        · exact fun h => Or.inl h
        · rintro (h | ⟨h2, h3⟩)
          · exact h
          · exact absurd h2.symm h1
    · rw [bmInsert_cons_ne h0]
      by_cases h1 : k0 = k'
      · subst h1
        rw [bmGet_cons, if_pos rfl, bmGet_cons, if_pos rfl]
        constructor
        · exact fun h => Or.inl h
        · rintro (h | ⟨h2, h3⟩)
          · exact h
          · exact absurd h2 h0
      · rw [bmGet_cons, if_neg h1, bmGet_cons, if_neg h1]
        exact ih

theorem bmInsert_eq_of_mem {m : BmAcc} {k : Bytes} {d : Nat} (h : d ∈ bmGet m k) :
    bmInsert m k d = m := by
  induction m with
  | nil => simp [bmGet_nil] at h
  | cons e rest ih =>
    obtain ⟨k0, s⟩ := e
    by_cases h0 : k0 = k
    · subst h0
      rw [bmGet_cons, if_pos rfl] at h
      simp [bmInsert, Finset.insert_eq_self.mpr h]
    · rw [bmGet_cons, if_neg h0] at h
      rw [bmInsert_cons_ne h0, ih h]

theorem bmKeys_nil : bmKeys [] = [] := rfl

theorem bmKeys_cons (k0 : Bytes) (s : Finset Nat) (rest : BmAcc) :
    bmKeys ((k0, s) :: rest) = k0 :: bmKeys rest := rfl

theorem bmKeys_bmInsert (m : BmAcc) (k : Bytes) (d : Nat) :
    bmKeys (bmInsert m k d) = if k ∈ bmKeys m then bmKeys m else bmKeys m ++ [k] := by
  induction m with
  | nil => simp [bmInsert, bmKeys]
  | cons e rest ih =>
    obtain ⟨k0, s⟩ := e
    by_cases h0 : k0 = k
    · subst h0
      have hmem : k0 ∈ bmKeys ((k0, s) :: rest) := by simp [bmKeys_cons]
      rw [if_pos hmem]
      simp [bmInsert, bmKeys_cons]
    · have hne : k ≠ k0 := fun h => h0 h.symm
      rw [bmInsert_cons_ne h0, bmKeys_cons, bmKeys_cons, ih]
      by_cases hm : k ∈ bmKeys rest
      · rw [if_pos hm, if_pos (by simp [bmKeys_cons, hm])]
      · rw [if_neg hm, if_neg (by simp [bmKeys_cons, hm, hne]), List.cons_append]

theorem bmKeys_bmInsert_nodup {m : BmAcc} (h : (bmKeys m).Nodup) (k : Bytes) (d : Nat) :
    (bmKeys (bmInsert m k d)).Nodup := by
  rw [bmKeys_bmInsert]
  by_cases hm : k ∈ bmKeys m
  · simpa [hm]
  · simpa [hm, List.nodup_append] using h

theorem bmGet_eq_empty_of_not_mem_keys {m : BmAcc} {k : Bytes} (h : k ∉ bmKeys m) :
    bmGet m k = ∅ := by
  induction m with
  | nil => rfl
  | cons e rest ih =>
    obtain ⟨k0, s⟩ := e
    rw [bmKeys_cons, List.mem_cons] at h
    push_neg at h
    rw [bmGet_cons, if_neg (fun h' => h.1 h'.symm)]
    exact ih h.2

theorem mem_fsXor (x : Nat) (s t : Finset Nat) :
    x ∈ fsXor s t ↔ (x ∈ s ∧ x ∉ t) ∨ (x ∉ s ∧ x ∈ t) := by
  simp only [fsXor, Finset.mem_union, Finset.mem_sdiff]
  tauto

theorem fsXor_empty (s : Finset Nat) : fsXor s ∅ = s := by
  simp [fsXor]

theorem applyBm_apply (f : Finset Nat → Finset Nat → Finset Nat) (m : BmAcc) :
    ∀ b : Bytes → Finset Nat, (bmKeys m).Nodup → ∀ k : Bytes,
      applyBm f b m k = if k ∈ bmKeys m then f (b k) (bmGet m k) else b k := by
  induction m with
  | nil =>
    intro b _ k
    simp [applyBm, bmKeys_nil]
  | cons e rest ih =>
    intro b hnd k
    obtain ⟨k0, s0⟩ := e
    rw [bmKeys_cons, List.nodup_cons] at hnd
    have hfold : applyBm f b ((k0, s0) :: rest) =
        applyBm f (Function.update b k0 (f (b k0) s0)) rest := by
      simp [applyBm]
    rw [hfold, ih (Function.update b k0 (f (b k0) s0)) hnd.2 k]
    by_cases hk : k = k0
    · subst hk
      rw [if_neg hnd.1, Function.update_same,
        if_pos (show k ∈ bmKeys ((k, s0) :: rest) by simp [bmKeys_cons]),
        bmGet_cons, if_pos rfl]
    · have hupd : Function.update b k0 (f (b k0) s0) k = b k :=
        Function.update_noteq hk _ _
      by_cases hm : k ∈ bmKeys rest
      · rw [if_pos hm, if_pos (by simp [bmKeys_cons, hm]), hupd, bmGet_cons,
          if_neg (fun h => hk h.symm)]
      · rw [if_neg hm, if_neg (by simp [bmKeys_cons, hm, hk]), hupd]

theorem replayAux_append (store : StoreState) (b : Bool) (xs ys : List Operation) :
    ∀ st : ReplaySt,
      replayAux store b (xs ++ ys) st =
        match replayAux store b xs st with
        | .error e => .error e
        | .ok st' => replayAux store b ys st' := by
  induction xs with
  | nil => intro st; simp [replayAux]
  | cons op rest ih =>
    intro st
    simp only [List.cons_append, replayAux]
    cases applyOp store b st op with
    | error e => rfl
    | ok st' => exact ih st'

theorem applyOp_agree (store : StoreState) (b1 b2 : Bool) (st1 st2 : ReplaySt)
    (op : Operation) (h : ScopeW st1 st2) :
    AgreeE (applyOp store b1 st1 op) (applyOp store b2 st2 op) := by
  obtain ⟨h1, h2, h3, h4⟩ := h
  cases op with
  | accountId a => exact ⟨rfl, h2, h3, h4⟩
  | collection c => exact ⟨h1, rfl, h3, h4⟩
  | documentId d => exact ⟨h1, h2, rfl, h4⟩
  | value family field set =>
    exact ⟨h1, h2, h3, by simp [h1, h2, h3, h4]⟩
  | index field key set =>
    exact ⟨h1, h2, h3, by simp [h1, h2, h3, h4]⟩
  | bitmap family field key set =>
    simp only [applyOp]
    cases b1 <;> cases b2 <;> simp only [if_true, if_false, Bool.false_eq_true] <;>
      first
      | (exact ⟨h1, h2, h3, h4⟩)
      | (cases set <;> simp only [if_true, if_false, Bool.false_eq_true] <;> exact ⟨h1, h2, h3, h4⟩)
  | acl g set =>
    exact ⟨h1, h2, h3, by simp [h1, h2, h3, h4]⟩
  | log c ch payload =>
    exact ⟨h1, h2, h3, by simp [h1, h2, h3, h4]⟩
  | assertValue field family m =>
    simp only [applyOp, h1, h2, h3, h4]
    cases htr : trxGet store st2.writes
        (valueKeySer st2.accountId st2.collection st2.documentId family field) with
    | error e => exact trivial
    | ok v =>
      cases v with
      | none => exact trivial
      | some bytes =>
        by_cases hm : m bytes = true
        · simp only [hm, if_true]
          exact ⟨h1, h2, h3, h4⟩
        · simp only [hm, if_false, Bool.false_eq_true]
          exact trivial

theorem replay_agree (store : StoreState) (ops : List Operation) :
    ∀ (b1 b2 : Bool) (st1 st2 : ReplaySt), ScopeW st1 st2 →
      AgreeE (replayAux store b1 ops st1) (replayAux store b2 ops st2) := by
  induction ops with
  | nil => intro b1 b2 st1 st2 h; exact h
  | cons op rest ih =>
    intro b1 b2 st1 st2 h
    have hop := applyOp_agree store b1 b2 st1 st2 op h
    simp only [replayAux]
    cases ha1 : applyOp store b1 st1 op with
    | error e1 =>
      cases ha2 : applyOp store b2 st2 op with
      | error e2 => exact trivial
      | ok r2 => rw [ha1, ha2] at hop; exact absurd hop (by simp [AgreeE])
    | ok r1 =>
      cases ha2 : applyOp store b2 st2 op with
      | error e2 => rw [ha1, ha2] at hop; exact absurd hop (by simp [AgreeE])
      | ok r2 =>
        rw [ha1, ha2] at hop
        exact ih b1 b2 r1 r2 hop

theorem applyOp_false_acc (store : StoreState) (st : ReplaySt) (op : Operation)
    (r : ReplaySt) (h : applyOp store false st op = .ok r) :
    r.setBitmaps = st.setBitmaps ∧ r.clearBitmaps = st.clearBitmaps := by
  cases op with
  | accountId a => cases h; exact ⟨rfl, rfl⟩
  | collection c => cases h; exact ⟨rfl, rfl⟩
  | documentId d => cases h; exact ⟨rfl, rfl⟩
  | value family field set => cases h; exact ⟨rfl, rfl⟩
  | index field key set => cases h; exact ⟨rfl, rfl⟩
  | bitmap family field key set =>
    simp only [applyOp, if_neg (by simp : ¬(false = true))] at h
    cases h; exact ⟨rfl, rfl⟩
  | acl g set => cases h; exact ⟨rfl, rfl⟩
  | log c ch payload => cases h; exact ⟨rfl, rfl⟩
  | assertValue field family m =>
    simp only [applyOp] at h
    cases hc : (match trxGet store st.writes
        (valueKeySer st.accountId st.collection st.documentId family field) with
      | .ok v => v
      | .error _ => none : Option Bytes) with
    | none => rw [hc] at h; exact absurd h (by simp)
    | some bytes =>
      rw [hc] at h
      change (if m bytes = true then Except.ok st else Except.error ()) = Except.ok r at h
      by_cases hm : m bytes = true
      · rw [if_pos hm] at h; cases h; exact ⟨rfl, rfl⟩
      · rw [if_neg hm] at h; exact absurd h (by simp)

theorem replay_false_acc (store : StoreState) (ops : List Operation) :
    ∀ st st' : ReplaySt, replayAux store false ops st = .ok st' →
      st'.setBitmaps = st.setBitmaps ∧ st'.clearBitmaps = st.clearBitmaps := by
  induction ops with
  | nil => intro st st' h; cases h; exact ⟨rfl, rfl⟩
  | cons op rest ih =>
    intro st st' h
    simp only [replayAux] at h
    cases ha : applyOp store false st op with
    | error e => rw [ha] at h; exact absurd h (by simp)
    | ok r =>
      rw [ha] at h
      obtain ⟨h1, h2⟩ := applyOp_false_acc store st op r ha
      obtain ⟨h3, h4⟩ := ih r st' h
      exact ⟨h3.trans h1, h4.trans h2⟩

theorem applyOp_assertValue_ok (store : StoreState) (b : Bool) (st : ReplaySt)
    (field family : Nat) (m : Bytes → Bool) (r : ReplaySt)
    (h : applyOp store b st (.assertValue field family m) = .ok r) : r = st := by
  simp only [applyOp] at h
  cases hc : (match trxGet store st.writes
      (valueKeySer st.accountId st.collection st.documentId family field) with
    | .ok v => v
    | .error _ => none : Option Bytes) with
  | none => rw [hc] at h; exact absurd h (by simp)
  | some bytes =>
    rw [hc] at h
    change (if m bytes = true then Except.ok st else Except.error ()) = Except.ok r at h
    by_cases hm : m bytes = true
    · rw [if_pos hm] at h; cases h; rfl
    · rw [if_neg hm] at h; exact absurd h (by simp)

theorem applyOp_scope (store : StoreState) (b : Bool) (st : ReplaySt) (op : Operation)
    (r : ReplaySt) (h : applyOp store b st op = .ok r) :
    (r.accountId, r.collection, r.documentId) =
      scopeStep (st.accountId, st.collection, st.documentId) op := by
  cases op with
  | accountId a => cases h; rfl
  | collection c => cases h; rfl
  | documentId d => cases h; rfl
  | value family field set => cases h; rfl
  | index field key set => cases h; rfl
  | bitmap family field key set =>
    simp only [applyOp] at h
    cases b with
    | false => simp only [Bool.false_eq_true, if_false] at h; cases h; rfl
    | true =>
      simp only [if_true] at h
      cases set with
      | false => simp only [Bool.false_eq_true, if_false] at h; cases h; rfl
      | true => simp only [if_true] at h; cases h; rfl
  | acl g set => cases h; rfl
  | log c ch payload => cases h; rfl
  | assertValue field family m =>
    rw [applyOp_assertValue_ok store b st field family m r h]
    rfl

theorem replay_scope (store : StoreState) (b : Bool) (ops : List Operation) :
    ∀ st st' : ReplaySt, replayAux store b ops st = .ok st' →
      (st'.accountId, st'.collection, st'.documentId) =
        scopeFold ops (st.accountId, st.collection, st.documentId) := by
  induction ops with
  | nil => intro st st' h; cases h; rfl
  | cons op rest ih =>
    intro st st' h
    simp only [replayAux] at h
    cases ha : applyOp store b st op with
    | error e => rw [ha] at h; exact absurd h (by simp)
    | ok r =>
      rw [ha] at h
      have hs := applyOp_scope store b st op r ha
      have hr := ih r st' h
      rw [hr, hs]
      rfl

theorem replay_prefix_ok (store : StoreState) (b : Bool) (xs ys : List Operation)
    (st st' : ReplaySt) (h : replayAux store b (xs ++ ys) st = .ok st') :
    ∃ stm, replayAux store b xs st = .ok stm ∧ replayAux store b ys stm = .ok st' := by
  rw [replayAux_append] at h
  cases hx : replayAux store b xs st with
  | error e => rw [hx] at h; exact absurd h (by simp)
  | ok stm => rw [hx] at h; exact ⟨stm, rfl, h⟩

theorem replay_bitmaps (store : StoreState) (ops : List Operation) :
    ∀ st st' : ReplaySt, replayAux store true ops st = .ok st' →
      ∀ (k : Bytes) (x : Nat),
        (x ∈ bmGet st'.setBitmaps k ↔ x ∈ bmGet st.setBitmaps k ∨
          (true, k, x) ∈ bitmapOpsFrom (st.accountId, st.collection, st.documentId) ops) ∧
        (x ∈ bmGet st'.clearBitmaps k ↔ x ∈ bmGet st.clearBitmaps k ∨
          (false, k, x) ∈ bitmapOpsFrom (st.accountId, st.collection, st.documentId) ops) := by
  induction ops with
  | nil =>
    intro st st' h k x
    cases h
    simp [bitmapOpsFrom]
  | cons op rest ih =>
    intro st st' h k x
    simp only [replayAux] at h
    cases ha : applyOp store true st op with
    | error e => rw [ha] at h; exact absurd h (by simp)
    | ok r =>
      rw [ha] at h
      have hrec := ih r st' h k x
      have hsc := applyOp_scope store true st op r ha
      cases op with
      | accountId a =>
        cases ha
        simpa [bitmapOpsFrom, scopeStep] using hrec
      | collection c =>
        cases ha
        simpa [bitmapOpsFrom, scopeStep] using hrec
      | documentId d =>
        cases ha
        simpa [bitmapOpsFrom, scopeStep] using hrec
      | value family field set =>
        cases ha
        simpa [bitmapOpsFrom, scopeStep] using hrec
      | index field key set =>
        cases ha
        simpa [bitmapOpsFrom, scopeStep] using hrec
      | acl g set =>
        cases ha
        simpa [bitmapOpsFrom, scopeStep] using hrec
      | log c ch payload =>
        cases ha
        simpa [bitmapOpsFrom, scopeStep] using hrec
      | assertValue field family m =>
        rw [applyOp_assertValue_ok store true st field family m r ha] at hrec
        simpa [bitmapOpsFrom, scopeStep] using hrec
      | bitmap family field key set =>
        cases set with
        | true =>
          have heq : applyOp store true st (.bitmap family field key true) =
              .ok { st with setBitmaps :=
                (bmInsert st.setBitmaps
                  (bitmapKeySer st.accountId st.collection family field key
                    (blockNumOf st.documentId))
                  (bitOf st.documentId)) } := rfl
          rw [heq] at ha
          cases ha
          constructor
          · rw [hrec.1]
            simp only [mem_bmGet_bmInsert, bitmapOpsFrom, List.mem_cons, Prod.mk.injEq]
            constructor
            · rintro ((h | ⟨h1, h2⟩) | h)
              · exact Or.inl h
              · exact Or.inr (Or.inl ⟨trivial, h1, h2⟩)
              · exact Or.inr (Or.inr h)
            · rintro (h | ⟨h1, h2, h3⟩ | h)
              · exact Or.inl (Or.inl h)
              · exact Or.inl (Or.inr ⟨h2, h3⟩)
              · exact Or.inr h
          · rw [hrec.2]
            simp only [bitmapOpsFrom, List.mem_cons, Prod.mk.injEq]
            constructor
            · rintro (h | h)
              · exact Or.inl h
              · exact Or.inr (Or.inr h)
            · rintro (h | ⟨h1, h2, h3⟩ | h)
              · exact Or.inl h
              · exact absurd h1 (by simp)
              · exact Or.inr h
        | false =>
          have heq : applyOp store true st (.bitmap family field key false) =
              .ok { st with clearBitmaps :=
                (bmInsert st.clearBitmaps
                  (bitmapKeySer st.accountId st.collection family field key
                    (blockNumOf st.documentId))
                  (bitOf st.documentId)) } := rfl
          rw [heq] at ha
          cases ha
          constructor
          · rw [hrec.1]
            simp only [bitmapOpsFrom, List.mem_cons, Prod.mk.injEq]
            constructor
            · rintro (h | h)
              · exact Or.inl h
              · exact Or.inr (Or.inr h)
            · rintro (h | ⟨h1, h2, h3⟩ | h)
              · exact Or.inl h
              · exact absurd h1 (by simp)
              · exact Or.inr h
          · rw [hrec.2]
            simp only [mem_bmGet_bmInsert, bitmapOpsFrom, List.mem_cons, Prod.mk.injEq]
            constructor
            · rintro ((h | ⟨h1, h2⟩) | h)
              · exact Or.inl h
              · exact Or.inr (Or.inl ⟨trivial, h1, h2⟩)
              · exact Or.inr (Or.inr h)
            · rintro (h | ⟨h1, h2, h3⟩ | h)
              · exact Or.inl (Or.inl h)
              · exact Or.inl (Or.inr ⟨h2, h3⟩)
              · exact Or.inr h

theorem applyOp_keys_nodup (store : StoreState) (b : Bool) (st : ReplaySt) (op : Operation)
    (r : ReplaySt) (h : applyOp store b st op = .ok r)
    (h1 : (bmKeys st.setBitmaps).Nodup) (h2 : (bmKeys st.clearBitmaps).Nodup) :
    (bmKeys r.setBitmaps).Nodup ∧ (bmKeys r.clearBitmaps).Nodup := by
  cases op with
  | accountId a => cases h; exact ⟨h1, h2⟩
  | collection c => cases h; exact ⟨h1, h2⟩
  | documentId d => cases h; exact ⟨h1, h2⟩
  | value family field set => cases h; exact ⟨h1, h2⟩
  | index field key set => cases h; exact ⟨h1, h2⟩
  | acl g set => cases h; exact ⟨h1, h2⟩
  | log c ch payload => cases h; exact ⟨h1, h2⟩
  | assertValue field family m =>
    rw [applyOp_assertValue_ok store b st field family m r h]
    exact ⟨h1, h2⟩
  | bitmap family field key set =>
    cases b with
    | false =>
      have heq : applyOp store false st (.bitmap family field key set) = .ok st := rfl
      rw [heq] at h; cases h; exact ⟨h1, h2⟩
    | true =>
      cases set with
      | true =>
        have heq : applyOp store true st (.bitmap family field key true) =
            .ok { st with setBitmaps :=
              (bmInsert st.setBitmaps
                (bitmapKeySer st.accountId st.collection family field key
                  (blockNumOf st.documentId))
                (bitOf st.documentId)) } := rfl
        rw [heq] at h; cases h
        exact ⟨bmKeys_bmInsert_nodup h1 _ _, h2⟩
      | false =>
        have heq : applyOp store true st (.bitmap family field key false) =
            .ok { st with clearBitmaps :=
              (bmInsert st.clearBitmaps
                (bitmapKeySer st.accountId st.collection family field key
                  (blockNumOf st.documentId))
                (bitOf st.documentId)) } := rfl
        rw [heq] at h; cases h
        exact ⟨h1, bmKeys_bmInsert_nodup h2 _ _⟩

theorem replay_keys_nodup (store : StoreState) (b : Bool) (ops : List Operation) :
    ∀ st st' : ReplaySt, replayAux store b ops st = .ok st' →
      (bmKeys st.setBitmaps).Nodup → (bmKeys st.clearBitmaps).Nodup →
      (bmKeys st'.setBitmaps).Nodup ∧ (bmKeys st'.clearBitmaps).Nodup := by
  induction ops with
  | nil => intro st st' h h1 h2; cases h; exact ⟨h1, h2⟩
  | cons op rest ih =>
    intro st st' h h1 h2
    simp only [replayAux] at h
    cases ha : applyOp store b st op with
    | error e => rw [ha] at h; exact absurd h (by simp)
    | ok r =>
      rw [ha] at h
      obtain ⟨h1', h2'⟩ := applyOp_keys_nodup store b st op r ha h1 h2
      exact ih r st' h h1' h2'

theorem scopeFold_cons (op : Operation) (ops : List Operation) (s : Nat × Nat × Nat) :
    scopeFold (op :: ops) s = scopeFold ops (scopeStep s op) := rfl

theorem scopeFold_append (xs ys : List Operation) (s : Nat × Nat × Nat) :
    scopeFold (xs ++ ys) s = scopeFold ys (scopeFold xs s) := by
  simp [scopeFold, List.foldl_append]

theorem bitmapOpsFrom_append (xs ys : List Operation) :
    ∀ s : Nat × Nat × Nat,
      bitmapOpsFrom s (xs ++ ys) = bitmapOpsFrom s xs ++ bitmapOpsFrom (scopeFold xs s) ys := by
  induction xs with
  | nil => intro s; simp [bitmapOpsFrom, scopeFold]
  | cons op rest ih =>
    intro s
    cases op <;>
      simp [bitmapOpsFrom, scopeFold_cons, scopeStep, ih]

theorem ReplaySt.ext' {a b : ReplaySt} (h1 : a.accountId = b.accountId)
    (h2 : a.collection = b.collection) (h3 : a.documentId = b.documentId)
    (h4 : a.writes = b.writes) (h5 : a.setBitmaps = b.setBitmaps)
    (h6 : a.clearBitmaps = b.clearBitmaps) : a = b := by
  cases a; cases b; simp_all

theorem writeGo_retry_ok (cf : Nat → Bool) (batch : List Operation) (store : StoreState) :
    ∀ (fuel rc : Nat) (sb cb : BmAcc) (s' : StoreState), 1 ≤ rc →
      writeGo cf batch store rc fuel sb cb = (.ok (), s') →
      ∃ st, replayAux store false batch (initReplay sb cb) = .ok st ∧
        s' = commitSt store st := by
  intro fuel
  induction fuel with
  | zero =>
    intro rc sb cb s' hrc h
    exact absurd h (by simp [writeGo])
  | succ fuel ih =>
    intro rc sb cb s' hrc h
    have hbeq : (rc == 0) = false := by
      simp only [beq_eq_false_iff_ne]
      omega
    simp only [writeGo, hbeq] at h
    cases hrep : replayAux store false batch (initReplay sb cb) with
    | error e =>
      rw [hrep] at h
      exact absurd h (by simp)
    | ok st =>
      rw [hrep] at h
      cases hcf : cf rc with
      | false =>
        rw [hcf] at h
        simp only [Bool.false_eq_true, if_false, Prod.mk.injEq] at h
        exact ⟨st, rfl, h.2.symm⟩
      | true =>
        rw [hcf] at h
        simp only [if_true] at h
        by_cases hlt : rc < MAX_COMMIT_ATTEMPTS
        · rw [if_pos hlt] at h
          obtain ⟨hacc1, hacc2⟩ := replay_false_acc store batch _ _ hrep
          rw [hacc1, hacc2] at h
          obtain ⟨st2, hst2, hcm⟩ := ih (rc + 1) sb cb s' (by omega) h
          exact ⟨st2, hrep.symm.trans hst2, hcm⟩
        · rw [if_neg hlt] at h
          exact absurd h (by simp)

theorem write_ok (cf : Nat → Bool) (batch : List Operation) (store : StoreState)
    (s' : StoreState) (h : write cf batch store = (.ok (), s')) :
    ∃ st0, replayAux store true batch (initReplay [] []) = .ok st0 ∧
      s' = commitSt store st0 := by
  unfold write at h
  simp only [writeGo] at h
  cases hrep : replayAux store (0 == 0) batch (initReplay [] []) with
  | error e =>
    rw [hrep] at h
    exact absurd h (by simp)
  | ok st0 =>
    rw [hrep] at h
    have hrep' : replayAux store true batch (initReplay [] []) = .ok st0 := hrep
    cases hcf : cf 0 with
    | false =>
      rw [hcf] at h
      simp only [Bool.false_eq_true, if_false, Prod.mk.injEq] at h
      exact ⟨st0, hrep', h.2.symm⟩
    | true =>
      rw [hcf] at h
      simp only [if_true, if_pos (show 0 < MAX_COMMIT_ATTEMPTS by decide)] at h
      obtain ⟨st, hrepf, hcommit⟩ :=
        writeGo_retry_ok cf batch store MAX_COMMIT_ATTEMPTS 1
          st0.setBitmaps st0.clearBitmaps s' (by omega) h
      have hagree := replay_agree store batch false true
        (initReplay st0.setBitmaps st0.clearBitmaps) (initReplay [] [])
        ⟨rfl, rfl, rfl, rfl⟩
      rw [hrepf, hrep'] at hagree
      obtain ⟨e1, e2, e3, e4⟩ := hagree
      obtain ⟨e5, e6⟩ := replay_false_acc store batch _ _ hrepf
      have hst : st = st0 := ReplaySt.ext' e1 e2 e3 e4 e5 e6
      exact ⟨st0, hrep', by rw [hcommit, hst]⟩

theorem commitSt_bitmaps (store : StoreState) (st : ReplaySt)
    (h1 : (bmKeys st.setBitmaps).Nodup) (h2 : (bmKeys st.clearBitmaps).Nodup) (k : Bytes) :
    (commitSt store st).bitmaps k =
      fsXor (store.bitmaps k ∪ bmGet st.setBitmaps k) (bmGet st.clearBitmaps k) := by
  show applyBm fsXor (applyBm (· ∪ ·) store.bitmaps st.setBitmaps) st.clearBitmaps k = _
  rw [applyBm_apply fsXor st.clearBitmaps _ h2 k, applyBm_apply (· ∪ ·) st.setBitmaps _ h1 k]
  by_cases hc : k ∈ bmKeys st.clearBitmaps
  · rw [if_pos hc]
    by_cases hs : k ∈ bmKeys st.setBitmaps
    · rw [if_pos hs]
    · rw [if_neg hs, bmGet_eq_empty_of_not_mem_keys hs, Finset.union_empty]
  · rw [if_neg hc, bmGet_eq_empty_of_not_mem_keys hc, fsXor_empty]
    by_cases hs : k ∈ bmKeys st.setBitmaps
    · rw [if_pos hs]
    · rw [if_neg hs, bmGet_eq_empty_of_not_mem_keys hs, Finset.union_empty]

theorem replay_error_all (store : StoreState) (batch : List Operation)
    (h : replayAux store true batch (initReplay [] []) = .error ()) :
    ∀ (b : Bool) (sb cb : BmAcc), replayAux store b batch (initReplay sb cb) = .error () := by
  intro b sb cb
  have hag := replay_agree store batch b true (initReplay sb cb) (initReplay [] [])
    ⟨rfl, rfl, rfl, rfl⟩
  rw [h] at hag
  cases hr : replayAux store b batch (initReplay sb cb) with
  | error e => cases e; rfl
  | ok st => rw [hr] at hag; exact absurd hag (by simp [AgreeE])

theorem writeGo_assert_fails (cf : Nat → Bool) (batch : List Operation) (store : StoreState)
    (h : replayAux store true batch (initReplay [] []) = .error ()) :
    ∀ rc fuel sb cb, writeGo cf batch store rc (fuel + 1) sb cb =
      (.error .assertValueFailed, store) := by
  intro rc fuel sb cb
  have hrep := replay_error_all store batch h (rc == 0) sb cb
  simp only [writeGo, hrep]

/-- C1: if the `AssertValue` read of a batch finds the current value (as
the transaction sees it at that point) absent, or present but rejected by
the matcher — that is, the replay of the batch cancels with an assert
failure — then `write` returns `AssertValueFailed` at once, for every
commit-conflict oracle, from every retry state (so it never retries), and
the store is returned unchanged: no operation of the batch has any
observable effect. -/
theorem assertValue_failure_cancels_write (cf : Nat → Bool) (batch : List Operation)
    (store : StoreState)
    (h : replayAux store true batch (initReplay [] []) = .error ()) :
    write cf batch store = (.error .assertValueFailed, store) ∧
      ∀ rc fuel sb cb, writeGo cf batch store rc (fuel + 1) sb cb =
        (.error .assertValueFailed, store) := by
  refine ⟨?_, writeGo_assert_fails cf batch store h⟩
  unfold write
  exact writeGo_assert_fails cf batch store h 0 MAX_COMMIT_ATTEMPTS [] []

/-- Witness for C1, the spec's AssertValue-rollback scenario: batch
`[DocumentId 1, Value(set "a"), AssertValue(expected "z"), Value(set "b")]`
on an empty store returns `AssertValueFailed` and leaves the store
unchanged (the assert reads the in-transaction value `"a"`, which the
matcher `= "z"` rejects). -/
theorem assertValue_failure_cancels_write_witness :
    write noConflict
        [.documentId 1, .value 0 0 (some [97]),
          .assertValue 0 0 (fun b => b == [122]), .value 0 0 (some [98])]
        emptyStore =
      (.error .assertValueFailed, emptyStore) :=
  (assertValue_failure_cancels_write noConflict
    [.documentId 1, .value 0 0 (some [97]),
      .assertValue 0 0 (fun b => b == [122]), .value 0 0 (some [98])]
    emptyStore (by decide)).1

/-- C9: when the backend read performed for an `AssertValue` op itself
fails (the transaction buffer does not cover the asserted key and the
backend read faults), `write` swallows the error — `.unwrap_or_default()`
turns it into "value missing" — cancels, and returns `AssertValueFailed`
for every commit oracle without entering the retry loop; the failure is
never surfaced as a backend error. -/
theorem assertValue_read_error_swallowed (cf : Nat → Bool)
    (pre rest : List Operation) (field family : Nat) (m : Bytes → Bool)
    (store : StoreState) (stp : ReplaySt)
    (hpre : replayAux store true pre (initReplay [] []) = .ok stp)
    (hmiss : assocLookup stp.writes
      (valueKeySer stp.accountId stp.collection stp.documentId family field) = none)
    (hfault : store.readFault
      (valueKeySer stp.accountId stp.collection stp.documentId family field) = true) :
    write cf (pre ++ .assertValue field family m :: rest) store =
      (.error .assertValueFailed, store) := by
  have herr : replayAux store true (pre ++ .assertValue field family m :: rest)
      (initReplay [] []) = .error () := by
    rw [replayAux_append, hpre]
    simp only [replayAux, applyOp, trxGet, hmiss, hfault, if_true]
  unfold write
  exact writeGo_assert_fails cf _ store herr 0 MAX_COMMIT_ATTEMPTS [] []

/-- Witness for C9: a batch that is just one `AssertValue` whose matcher
accepts everything, run against a store whose backend faults every read,
still returns `AssertValueFailed` (not a backend error). -/
theorem assertValue_read_error_swallowed_witness :
    write noConflict [.assertValue 0 0 (fun _ => true)] faultyStore =
      (.error .assertValueFailed, faultyStore) :=
  assertValue_read_error_swallowed noConflict [] [] 0 0 (fun _ => true) faultyStore
    (initReplay [] []) rfl rfl rfl

/-- Counterexample to C3 as stated: a batch that both sets and clears the
same `(bitmap key, document id)` puts the bit into BOTH accumulators —
nothing ever removes a bit from the opposite accumulator, so the two maps
are not disjoint and "set wins by construction" is false (the emitted
BitOr-then-BitXor composition in fact clears the bit, see C4). -/
theorem set_clear_accumulators_not_disjoint_cex :
    5 ∈ bmGet cexStC3.setBitmaps cexKeyC3 ∧ 5 ∈ bmGet cexStC3.clearBitmaps cexKeyC3 := by
  decide

/-- C3 amended: within one execution of `write` on one batch, the set and
clear accumulators are disjoint at emission for every batch that does not
both set and clear the same `(serialized bitmap key, bit)`; a batch that
does both (set wins does NOT hold) puts the bit in both accumulators, as
the counterexample shows. -/
theorem set_clear_accumulators_disjoint (store : StoreState) (batch : List Operation)
    (st : ReplaySt) (hrep : replayAux store true batch (initReplay [] []) = .ok st)
    (hnc : ∀ p ∈ bitmapOpsOf batch, ∀ q ∈ bitmapOpsOf batch,
      ¬(p.1 = true ∧ q.1 = false ∧ p.2.1 = q.2.1 ∧ p.2.2 = q.2.2)) :
    ∀ k : Bytes, bmGet st.setBitmaps k ∩ bmGet st.clearBitmaps k = ∅ := by
  intro k
  ext x
  simp only [Finset.mem_inter, Finset.not_mem_empty, iff_false, not_and]
  intro hx1 hx2
  have hc := replay_bitmaps store batch _ _ hrep k x
  rw [hc.1] at hx1
  rw [hc.2] at hx2
  rw [show bmGet (initReplay ([] : BmAcc) ([] : BmAcc)).setBitmaps k = ∅ from rfl] at hx1
  rw [show bmGet (initReplay ([] : BmAcc) ([] : BmAcc)).clearBitmaps k = ∅ from rfl] at hx2
  simp only [Finset.not_mem_empty, false_or] at hx1 hx2
  exact hnc (true, k, x) hx1 (false, k, x) hx2 ⟨rfl, rfl, rfl, rfl⟩

/-- Witness for the amended C3: a batch that sets bit 5 and clears bit 6
of the same bitmap key has disjoint accumulators at that key. -/
theorem set_clear_accumulators_disjoint_witness :
    bmGet
        (match replayAux emptyStore true
            [.accountId 1, .collection 2, .documentId 5, .bitmap 3 4 [] true,
              .documentId 6, .bitmap 3 4 [] false] (initReplay [] []) with
          | .ok st => st
          | .error _ => initReplay [] []).setBitmaps cexKeyC3 ∩
      bmGet
        (match replayAux emptyStore true
            [.accountId 1, .collection 2, .documentId 5, .bitmap 3 4 [] true,
              .documentId 6, .bitmap 3 4 [] false] (initReplay [] []) with
          | .ok st => st
          | .error _ => initReplay [] []).clearBitmaps cexKeyC3 = ∅ :=
  set_clear_accumulators_disjoint emptyStore
    [.accountId 1, .collection 2, .documentId 5, .bitmap 3 4 [] true,
      .documentId 6, .bitmap 3 4 [] false]
    (match replayAux emptyStore true
        [.accountId 1, .collection 2, .documentId 5, .bitmap 3 4 [] true,
          .documentId 6, .bitmap 3 4 [] false] (initReplay [] []) with
      | .ok st => st
      | .error _ => initReplay [] [])
    (by decide) (by decide) cexKeyC3

theorem replay_second_set_noop (store : StoreState) (b : Bool)
    (pre mid : List Operation) (family field : Nat) (key : Bytes) (a c d : Nat)
    (h1 : scopeFold pre initScope = (a, c, d))
    (h2 : scopeFold (pre ++ .bitmap family field key true :: mid) initScope = (a, c, d))
    (sb cb : BmAcc) (stm : ReplaySt)
    (hm : replayAux store b (pre ++ .bitmap family field key true :: mid)
      (initReplay sb cb) = .ok stm) :
    applyOp store b stm (.bitmap family field key true) = .ok stm := by
  cases b with
  | false => rfl
  | true =>
    have hscm := replay_scope store true _ _ _ hm
    rw [show ((initReplay sb cb).accountId, (initReplay sb cb).collection,
      (initReplay sb cb).documentId) = initScope from rfl, h2] at hscm
    have hma : stm.accountId = a := congrArg Prod.fst hscm
    have hmc : stm.collection = c := congrArg Prod.fst (congrArg Prod.snd hscm)
    have hmd : stm.documentId = d := congrArg Prod.snd (congrArg Prod.snd hscm)
    obtain ⟨stp, hp, hbm⟩ := replay_prefix_ok store true pre _ _ _ hm
    have hscp := replay_scope store true _ _ _ hp
    rw [show ((initReplay sb cb).accountId, (initReplay sb cb).collection,
      (initReplay sb cb).documentId) = initScope from rfl, h1] at hscp
    have hpa : stp.accountId = a := congrArg Prod.fst hscp
    have hpc : stp.collection = c := congrArg Prod.fst (congrArg Prod.snd hscp)
    have hpd : stp.documentId = d := congrArg Prod.snd (congrArg Prod.snd hscp)
    have hstep : applyOp store true stp (.bitmap family field key true) =
        .ok { stp with setBitmaps :=
          (bmInsert stp.setBitmaps
            (bitmapKeySer stp.accountId stp.collection family field key
              (blockNumOf stp.documentId))
            (bitOf stp.documentId)) } := rfl
    rw [hpa, hpc, hpd] at hstep
    simp only [replayAux, hstep] at hbm
    have hmemp : bitOf d ∈ bmGet
        (bmInsert stp.setBitmaps
          (bitmapKeySer a c family field key (blockNumOf d)) (bitOf d))
        (bitmapKeySer a c family field key (blockNumOf d)) := by
      rw [mem_bmGet_bmInsert]
      exact Or.inr ⟨rfl, rfl⟩
    have hmem : bitOf d ∈ bmGet stm.setBitmaps
        (bitmapKeySer a c family field key (blockNumOf d)) := by
      have hcar := replay_bitmaps store mid _ _ hbm
        (bitmapKeySer a c family field key (blockNumOf d)) (bitOf d)
      rw [hcar.1]
      exact Or.inl hmemp
    have hmem' : bitOf stm.documentId ∈ bmGet stm.setBitmaps
        (bitmapKeySer stm.accountId stm.collection family field key
          (blockNumOf stm.documentId)) := by
      rw [hma, hmc, hmd]
      exact hmem
    have hm2 : applyOp store true stm (.bitmap family field key true) =
        .ok { stm with setBitmaps :=
          (bmInsert stm.setBitmaps
            (bitmapKeySer stm.accountId stm.collection family field key
              (blockNumOf stm.documentId))
            (bitOf stm.documentId)) } := rfl
    rw [bmInsert_eq_of_mem hmem'] at hm2
    exact hm2

theorem replay_twice_eq (store : StoreState) (b : Bool)
    (pre mid post : List Operation) (family field : Nat) (key : Bytes) (a c d : Nat)
    (h1 : scopeFold pre initScope = (a, c, d))
    (h2 : scopeFold (pre ++ .bitmap family field key true :: mid) initScope = (a, c, d))
    (sb cb : BmAcc) :
    replayAux store b
        (pre ++ .bitmap family field key true ::
          (mid ++ .bitmap family field key true :: post)) (initReplay sb cb) =
      replayAux store b
        (pre ++ .bitmap family field key true :: (mid ++ post)) (initReplay sb cb) := by
  have hassoc1 : pre ++ Operation.bitmap family field key true ::
      (mid ++ Operation.bitmap family field key true :: post) =
      (pre ++ Operation.bitmap family field key true :: mid) ++
        (Operation.bitmap family field key true :: post) := by
    simp
  have hassoc2 : pre ++ Operation.bitmap family field key true :: (mid ++ post) =
      (pre ++ Operation.bitmap family field key true :: mid) ++ post := by
    simp
  rw [hassoc1, hassoc2,
    replayAux_append store b (pre ++ Operation.bitmap family field key true :: mid)
      (Operation.bitmap family field key true :: post) (initReplay sb cb),
    replayAux_append store b (pre ++ Operation.bitmap family field key true :: mid)
      post (initReplay sb cb)]
  cases hm : replayAux store b (pre ++ Operation.bitmap family field key true :: mid)
      (initReplay sb cb) with
  | error e => rfl
  | ok stm =>
    have hnoop := replay_second_set_noop store b pre mid family field key a c d h1 h2
      sb cb stm hm
    simp only [replayAux, hnoop]

theorem writeGo_twice_eq (cf : Nat → Bool) (store : StoreState)
    (pre mid post : List Operation) (family field : Nat) (key : Bytes) (a c d : Nat)
    (h1 : scopeFold pre initScope = (a, c, d))
    (h2 : scopeFold (pre ++ .bitmap family field key true :: mid) initScope = (a, c, d)) :
    ∀ fuel rc sb cb,
      writeGo cf (pre ++ .bitmap family field key true ::
        (mid ++ .bitmap family field key true :: post)) store rc fuel sb cb =
      writeGo cf (pre ++ .bitmap family field key true :: (mid ++ post)) store rc fuel sb cb := by
  intro fuel
  induction fuel with
  | zero => intro rc sb cb; rfl
  | succ fuel ih =>
    intro rc sb cb
    simp only [writeGo]
    rw [replay_twice_eq store (rc == 0) pre mid post family field key a c d h1 h2 sb cb]
    cases hrep : replayAux store (rc == 0)
        (pre ++ Operation.bitmap family field key true :: (mid ++ post))
        (initReplay sb cb) with
    | error e => rfl
    | ok st =>
      cases hcf : cf rc with
      | false => rfl
      | true =>
        by_cases hlt : rc < MAX_COMMIT_ATTEMPTS
        · simp only [if_true, if_pos hlt]
          exact ih (rc + 1) st.setBitmaps st.clearBitmaps
        · simp only [if_true, if_neg hlt]

/-- C4: (i) a batch that first sets and then clears the same
`(bitmap key, document_id)` commits with that bit cleared — the BitOr of
`set_bitmaps` is applied first, then the BitXor of `clear_bitmaps`
toggles the (now set) bit off; (ii) a batch that sets the same bit twice
behaves exactly like the batch that sets it once (OR composition is
idempotent): the whole `write` result, final bitmap state included, is
equal. The scope hypotheses say the implicit `(account, collection,
document)` scope is the same `(a, c, d)` at both bitmap operations. -/
theorem bitmap_or_xor_composition :
    (∀ (cf : Nat → Bool) (pre mid post : List Operation) (family field : Nat) (key : Bytes)
        (store s' : StoreState) (a c d : Nat),
      scopeFold pre initScope = (a, c, d) →
      scopeFold (pre ++ .bitmap family field key true :: mid) initScope = (a, c, d) →
      write cf (pre ++ .bitmap family field key true ::
        (mid ++ .bitmap family field key false :: post)) store = (.ok (), s') →
      bitOf d ∉ s'.bitmaps (bitmapKeySer a c family field key (blockNumOf d))) ∧
    (∀ (cf : Nat → Bool) (pre mid post : List Operation) (family field : Nat) (key : Bytes)
        (store : StoreState) (a c d : Nat),
      scopeFold pre initScope = (a, c, d) →
      scopeFold (pre ++ .bitmap family field key true :: mid) initScope = (a, c, d) →
      write cf (pre ++ .bitmap family field key true ::
        (mid ++ .bitmap family field key true :: post)) store =
        write cf (pre ++ .bitmap family field key true :: (mid ++ post)) store) := by
  constructor
  · intro cf pre mid post family field key store s' a c d h1 h2 hw
    obtain ⟨st0, hrep, hcm⟩ := write_ok cf _ store s' hw
    obtain ⟨hnd1, hnd2⟩ := replay_keys_nodup store true _ _ _ hrep
      (by simp [initReplay, bmKeys]) (by simp [initReplay, bmKeys])
    have hmemT : (true, bitmapKeySer a c family field key (blockNumOf d), bitOf d) ∈
        bitmapOpsOf (pre ++ Operation.bitmap family field key true ::
          (mid ++ Operation.bitmap family field key false :: post)) := by
      unfold bitmapOpsOf
      rw [bitmapOpsFrom_append, h1]
      apply List.mem_append_right
      exact List.mem_cons_self _ _
    have hmemC : (false, bitmapKeySer a c family field key (blockNumOf d), bitOf d) ∈
        bitmapOpsOf (pre ++ Operation.bitmap family field key true ::
          (mid ++ Operation.bitmap family field key false :: post)) := by
      unfold bitmapOpsOf
      rw [show pre ++ Operation.bitmap family field key true ::
          (mid ++ Operation.bitmap family field key false :: post) =
          (pre ++ Operation.bitmap family field key true :: mid) ++
            (Operation.bitmap family field key false :: post) from by simp,
        bitmapOpsFrom_append, h2]
      apply List.mem_append_right
      exact List.mem_cons_self _ _
    have hcar := replay_bitmaps store _ _ _ hrep
      (bitmapKeySer a c family field key (blockNumOf d)) (bitOf d)
    have hbset : bitOf d ∈ bmGet st0.setBitmaps
        (bitmapKeySer a c family field key (blockNumOf d)) := by
      rw [hcar.1]
      exact Or.inr hmemT
    have hbclear : bitOf d ∈ bmGet st0.clearBitmaps
        (bitmapKeySer a c family field key (blockNumOf d)) := by
      rw [hcar.2]
      exact Or.inr hmemC
    rw [hcm, commitSt_bitmaps store st0 hnd1 hnd2, mem_fsXor]
    rintro (⟨hin, hout⟩ | ⟨hout, hin⟩)
    · exact hout hbclear
    · exact hout (Finset.mem_union_right _ hbset)
  · intro cf pre mid post family field key store a c d h1 h2
    unfold write
    exact writeGo_twice_eq cf store pre mid post family field key a c d h1 h2
      (MAX_COMMIT_ATTEMPTS + 1) 0 [] []

/-- Witness for C4 at the concrete batch of the counterexample scope
`(1, 2, 5)`: set-then-clear of bit 5 commits with the bit absent, and
set-twice equals set-once as whole write results. -/
theorem bitmap_or_xor_composition_witness :
    bitOf 5 ∉ ((write noConflict cexBatchC3 emptyStore).2).bitmaps
        (bitmapKeySer 1 2 3 4 [] (blockNumOf 5)) ∧
      write noConflict
          ([.accountId 1, .collection 2, .documentId 5] ++ .bitmap 3 4 [] true ::
            ([] ++ .bitmap 3 4 [] true :: [])) emptyStore =
        write noConflict
          ([.accountId 1, .collection 2, .documentId 5] ++ .bitmap 3 4 [] true ::
            ([] ++ [])) emptyStore := by
  constructor
  · exact bitmap_or_xor_composition.1 noConflict
      [.accountId 1, .collection 2, .documentId 5] [] [] 3 4 [] emptyStore
      (write noConflict cexBatchC3 emptyStore).2 1 2 5 (by decide) (by decide)
      (by
        show write noConflict cexBatchC3 emptyStore =
          (Except.ok (), (write noConflict cexBatchC3 emptyStore).2)
        rw [← show (write noConflict cexBatchC3 emptyStore).1 = Except.ok ()
          from by decide])
  · exact bitmap_or_xor_composition.2 noConflict
      [.accountId 1, .collection 2, .documentId 5] [] [] 3 4 [] emptyStore 1 2 5
      (by decide) (by decide)

theorem getD_mem_of_lt {l : List Nat} : ∀ {n : Nat}, n < l.length → ∀ d : Nat,
    l.getD n d ∈ l := by
  induction l with
  | nil => intro n h d; simp at h
  | cons x xs ih =>
    intro n h d
    cases n with
    | zero => simp [List.getD]
    | succ n =>
      simp only [List.getD_cons_succ, List.mem_cons]
      exact Or.inr (ih (by simpa using h) d)

theorem firstFreeFrom_spec (res : List Nat) : ∀ fuel s : Nat,
    firstFreeFrom res s fuel = 1024 ∨
      (s ≤ firstFreeFrom res s fuel ∧ firstFreeFrom res s fuel < s + fuel ∧
        firstFreeFrom res s fuel ∉ res ∧
        ∀ y, s ≤ y → y < firstFreeFrom res s fuel → y ∈ res) := by
  intro fuel
  induction fuel with
  | zero => intro s; left; rfl
  | succ fuel ih =>
    intro s
    by_cases hs : s ∈ res
    · have heq : firstFreeFrom res s (fuel + 1) = firstFreeFrom res (s + 1) fuel := by
        simp [firstFreeFrom, hs]
      rcases ih (s + 1) with h | ⟨h1, h2, h3, h4⟩
      · left; rw [heq]; exact h
      · right
        rw [heq]
        refine ⟨by omega, by omega, h3, ?_⟩
        intro y hy1 hy2
        rcases Nat.eq_or_lt_of_le hy1 with heqy | hlt
        · rw [← heqy]; exact hs
        · exact h4 y (by omega) hy2
    · have heq : firstFreeFrom res s (fuel + 1) = s := by simp [firstFreeFrom, hs]
      right
      rw [heq]
      exact ⟨le_refl s, by omega, hs, fun y hy1 hy2 => absurd hy2 (by omega)⟩

/-- C2: the selection priority of `assign_document_id`. (1) When expired
reservations exist, the result is one of the expired ids for every random
oracle; (2) every expired id is reachable (oracle `i` picks the `i`-th:
the uniform-random pick is modelled as an oracle index). (3) Otherwise
the first id found by scanning the bitmap blocks with
`next_available_index`, filtered by the live reserved ids, wins.
(4) Otherwise the result is the lowest id in `[0, BITS_PER_BLOCK)` not
among the live reserved ids, 1024 as a last resort. (5) The spec's
end-to-end scenario: on a fresh (account, collection) (now = 1000,
expiry = 900) the first call returns 0; after its reservation row
`(0, 1000)` is written, an immediate second call returns 1; after the
first reservation is aged beyond expiry (timestamp 0), a third call
returns 0 again; plus two block-scan cases exercising
`next_available_index` (block byte `0b0000_0111`: first free bit 3; with
id 3 still reserved: 4). -/
theorem assign_document_id_priority :
    (∀ (rows : List (Nat × Nat)) (blocks : List (Nat × Bytes)) (nowT expiry r : Nat),
      (partitionRes rows (nowT - expiry)).1 ≠ [] →
      u32Max ∉ (partitionRes rows (nowT - expiry)).1 →
      assignDocumentId rows blocks nowT expiry r ∈ (partitionRes rows (nowT - expiry)).1) ∧
    (∀ (rows : List (Nat × Nat)) (blocks : List (Nat × Bytes)) (nowT expiry i : Nat),
      i < (partitionRes rows (nowT - expiry)).1.length →
      u32Max ∉ (partitionRes rows (nowT - expiry)).1 →
      assignDocumentId rows blocks nowT expiry i =
        (partitionRes rows (nowT - expiry)).1.getD i 0) ∧
    (∀ (rows : List (Nat × Nat)) (blocks : List (Nat × Bytes)) (nowT expiry r id : Nat),
      (partitionRes rows (nowT - expiry)).1 = [] →
      scanBlocks blocks (partitionRes rows (nowT - expiry)).2 = some id →
      id ≠ u32Max →
      assignDocumentId rows blocks nowT expiry r = id) ∧
    (∀ (rows : List (Nat × Nat)) (blocks : List (Nat × Bytes)) (nowT expiry r : Nat),
      (partitionRes rows (nowT - expiry)).1 = [] →
      scanBlocks blocks (partitionRes rows (nowT - expiry)).2 = none →
      assignDocumentId rows blocks nowT expiry r = 1024 ∨
        (assignDocumentId rows blocks nowT expiry r < 1024 ∧
          assignDocumentId rows blocks nowT expiry r ∉
            (partitionRes rows (nowT - expiry)).2 ∧
          ∀ y, y < assignDocumentId rows blocks nowT expiry r →
            y ∈ (partitionRes rows (nowT - expiry)).2)) ∧
    (assignDocumentId [] [] 1000 900 0 = 0 ∧
      assignDocumentId (insertRow [] 0 1000) [] 1000 900 0 = 1 ∧
      assignDocumentId [(0, 0), (1, 1000)] [] 1000 900 0 = 0 ∧
      assignDocumentId [] [(0, [7])] 1000 900 0 = 3 ∧
      assignDocumentId [(3, 1000)] [(0, [7])] 1000 900 0 = 4) := by
  refine ⟨?_, ?_, ?_, ?_, by decide, by decide, by decide, by decide, by decide⟩
  · intro rows blocks nowT expiry r hne hmax
    have hlen : (partitionRes rows (nowT - expiry)).1.length ≠ 0 := by
      simpa [List.length_eq_zero] using hne
    have hmem : (partitionRes rows (nowT - expiry)).1.getD
        (r % (partitionRes rows (nowT - expiry)).1.length) 0 ∈
        (partitionRes rows (nowT - expiry)).1 :=
      getD_mem_of_lt (Nat.mod_lt _ (Nat.pos_of_ne_zero hlen)) 0
    have hd1 : (partitionRes rows (nowT - expiry)).1.getD
        (r % (partitionRes rows (nowT - expiry)).1.length) 0 ≠ u32Max :=
      fun h => hmax (h ▸ hmem)
    unfold assignDocumentId
    simp only [if_pos hlen, if_neg hd1]
    exact hmem
  · intro rows blocks nowT expiry i hi hmax
    have hlen : (partitionRes rows (nowT - expiry)).1.length ≠ 0 := by omega
    have hmod : i % (partitionRes rows (nowT - expiry)).1.length = i :=
      Nat.mod_eq_of_lt hi
    have hmem : (partitionRes rows (nowT - expiry)).1.getD i 0 ∈
        (partitionRes rows (nowT - expiry)).1 := getD_mem_of_lt hi 0
    have hd1 : (partitionRes rows (nowT - expiry)).1.getD i 0 ≠ u32Max :=
      fun h => hmax (h ▸ hmem)
    unfold assignDocumentId
    simp only [if_pos hlen, hmod, if_neg hd1]
  · intro rows blocks nowT expiry r id hemp hscan hne
    have hlen : ¬(partitionRes rows (nowT - expiry)).1.length ≠ 0 := by
      simp [hemp]
    unfold assignDocumentId
    simp only [if_neg hlen, hscan, Option.getD_some, if_neg hne]
  · intro rows blocks nowT expiry r hemp hscan
    have hlen : ¬(partitionRes rows (nowT - expiry)).1.length ≠ 0 := by
      simp [hemp]
    unfold assignDocumentId
    simp only [if_neg hlen, hscan, Option.getD_none, if_pos rfl]
    rcases firstFreeFrom_spec (partitionRes rows (nowT - expiry)).2 BITS_PER_BLOCK 0 with
      h | ⟨h1, h2, h3, h4⟩
    · exact Or.inl h
    · exact Or.inr ⟨by simpa [BITS_PER_BLOCK] using h2, h3,
        fun y hy => h4 y (Nat.zero_le y) hy⟩

/-- Witness for C2 at concrete inputs: an expired reservation is reused
for an arbitrary oracle (here 5), and a bitmap-scan hit is returned when
no reservation is expired. -/
theorem assign_document_id_priority_witness :
    assignDocumentId [(0, 0)] [] 1000 900 5 ∈ (partitionRes [(0, 0)] (1000 - 900)).1 ∧
      assignDocumentId [] [(0, [7])] 2000 900 7 = 3 :=
  ⟨assign_document_id_priority.1 [(0, 0)] [] 1000 900 5 (by decide) (by decide),
    assign_document_id_priority.2.2.1 [] [(0, [7])] 2000 900 7 3 rfl (by decide) (by decide)⟩

theorem backendGet_whole (blobs : Bytes → Option Bytes) (key data : Bytes)
    (hb : blobs key = some data) (hlen : data.length ≤ usizeMax) :
    backendGet blobs key 0 usizeMax = some data := by
  unfold backendGet
  rw [hb]
  simp [List.take_of_length_le hlen]

/-- C5 amended: for the Lz4 facade, `get_blob` on a blob carrying the tail
marker always reads the whole blob and decompresses it; the requested
range is then applied in memory ONLY when `range.end` is strictly below
the decompressed length — in that case the result is exactly the clamped
slice `decompressed[range.start..range.end]` — while any range whose end
reaches or exceeds the decompressed length returns the whole decompressed
blob, ignoring `range.start` (this refutes the claim's "for every
requested range"). -/
theorem lz4_get_blob_range (codec : Codec) (blobs : Bytes → Option Bytes)
    (key data d : Bytes) (rstart rend : Nat)
    (hb : blobs key = some data) (hlen : data.length ≤ usizeMax)
    (hmark : (data.getLast?).getD 0 = CompressionAlgo.lz4.marker)
    (hdec : codec.decompress data.dropLast = some d) :
    (d.length ≤ rend → getBlob .lz4 codec blobs key rstart rend = .ok (some d)) ∧
    (rend < d.length → rstart ≤ rend →
      getBlob .lz4 codec blobs key rstart rend = .ok (some ((d.take rend).drop rstart))) ∧
    (rend < d.length → rstart ≤ rend →
      getBlob .lz4 codec blobs key rstart rend = .ok (some (specSlice d rstart rend))) := by
  have hbg := backendGet_whole blobs key data hb hlen
  have hcore : getBlob .lz4 codec blobs key rstart rend =
      if d.length ≤ rend then .ok (some d)
      else .ok (some (rustSliceD d rstart rend)) := by
    simp [getBlob, hbg, hmark, hdec]
  refine ⟨fun h => ?_, fun h hse => ?_, fun h hse => ?_⟩
  · rw [hcore, if_pos h]
  · rw [hcore, if_neg (not_le.mpr h)]
    unfold rustSliceD
    rw [if_pos ⟨hse, le_of_lt h⟩]
  · rw [hcore, if_neg (not_le.mpr h)]
    unfold rustSliceD specSlice
    rw [if_pos ⟨hse, le_of_lt h⟩, Nat.min_eq_left (le_of_lt h)]

/-- Counterexample to C5 as stated: a compressed blob decompressing to
`[10, 20, 30]`, read with range `1..1000`: since `range.end` exceeds the
length, the facade returns the whole `[10, 20, 30]`, not the clamped
slice `[20, 30]` the claim predicts. -/
theorem lz4_get_blob_range_cex :
    blobsC5 [1] = some [0, 0, 0, 0, 10, 20, 30, 161] ∧
    testCodec.decompress [0, 0, 0, 0, 10, 20, 30] = some [10, 20, 30] ∧
    getBlob .lz4 testCodec blobsC5 [1] 1 1000 = .ok (some [10, 20, 30]) ∧
    specSlice [10, 20, 30] 1 1000 = [20, 30] ∧
    getBlob .lz4 testCodec blobsC5 [1] 1 1000 ≠
      .ok (some (specSlice [10, 20, 30] 1 1000)) := by
  exact ⟨rfl, rfl, by decide, by decide, by decide⟩

/-- Witness for C5: on the concrete compressed blob, a range below the
length is sliced exactly, and a range at or past the length returns the
whole decompressed blob. -/
theorem lz4_get_blob_range_witness :
    getBlob .lz4 testCodec blobsC5 [1] 1 1000 =
      .ok (some ([10, 20, 30] : Bytes)) ∧
    getBlob .lz4 testCodec blobsC5 [1] 1 2 =
      .ok (some ((([10, 20, 30] : Bytes).take 2).drop 1)) :=
  ⟨(lz4_get_blob_range testCodec blobsC5 [1] [0, 0, 0, 0, 10, 20, 30, 161] [10, 20, 30]
      1 1000 rfl (by decide) (by decide) rfl).1 (by decide),
    (lz4_get_blob_range testCodec blobsC5 [1] [0, 0, 0, 0, 10, 20, 30, 161] [10, 20, 30]
      1 2 rfl (by decide) (by decide) rfl).2.1 (by decide) (by decide)⟩

/-- C6 amended: `get(put(k, v)) = v` with range `0..usize::MAX` for both
the None and Lz4 facades over a verbatim backend (for Lz4, given the
codec's round-trip law); and a legacy uncompressed blob read through an
Lz4 facade is returned as its raw bytes unchanged PROVIDED its last byte
is not the marker `0xa1` — a raw blob that happens to end in `0xa1` is
misdetected as compressed (the spec's accepted one-byte-collision
trade-off), refuting the claim's "any blob". -/
theorem blob_round_trip (codec : Codec) (blobs : Bytes → Option Bytes) (key v : Bytes) :
    (v.length ≤ usizeMax →
      getBlob .none codec (putBlob .none codec blobs key v) key 0 usizeMax =
        .ok (some v)) ∧
    (codec.decompress (codec.compress v) = some v →
      (codec.compress v).length + 1 ≤ usizeMax → v.length ≤ usizeMax →
      getBlob .lz4 codec (putBlob .lz4 codec blobs key v) key 0 usizeMax =
        .ok (some v)) ∧
    (∀ b : Bytes, blobs key = some b →
      (b.getLast?).getD 0 ≠ CompressionAlgo.lz4.marker → b.length ≤ usizeMax →
      getBlob .lz4 codec blobs key 0 usizeMax = .ok (some b)) := by
  refine ⟨fun hlen => ?_, fun hrt hlen hvlen => ?_, fun b hb hmark hblen => ?_⟩
  · have hput : putBlob .none codec blobs key v key = some v := by
      simp [putBlob, putData]
    have hbg := backendGet_whole (putBlob .none codec blobs key v) key v hput hlen
    simp [getBlob, hbg]
  · have hput : putBlob .lz4 codec blobs key v key =
        some (codec.compress v ++ [CompressionAlgo.lz4.marker]) := by
      simp [putBlob, putData]
    have hlen' : (codec.compress v ++ [CompressionAlgo.lz4.marker]).length ≤ usizeMax := by
      simpa using hlen
    have hbg := backendGet_whole (putBlob .lz4 codec blobs key v) key _ hput hlen'
    have hmark : ((codec.compress v ++
        [CompressionAlgo.lz4.marker]).getLast?).getD 0 = CompressionAlgo.lz4.marker := by
      simp
    have hdrop : (codec.compress v ++ [CompressionAlgo.lz4.marker]).dropLast =
        codec.compress v := by
      simp
    simp [getBlob, hbg, hmark, hdrop, hrt, hvlen]
  · have hbg := backendGet_whole blobs key b hb hblen
    simp [getBlob, hbg, hmark, hblen]

/-- Counterexample to C6 as stated: the raw blob `[0, 0, 0, 0, 161]` —
stored uncompressed, last byte equal to the LZ4 marker — read back
through an Lz4 facade is misdetected as compressed: the facade strips the
marker, decompresses `[0, 0, 0, 0]` (a valid size-prepended frame of
length 0) and returns `[]`, not the raw bytes. The codec used satisfies
the round-trip law, so the failure is not an artifact of the codec. -/
theorem blob_legacy_marker_collision_cex :
    blobsC6 [9] = some [0, 0, 0, 0, 161] ∧
    testCodec.decompress (testCodec.compress [5]) = some [5] ∧
    testCodec.decompress (testCodec.compress []) = some [] ∧
    getBlob .lz4 testCodec blobsC6 [9] 0 usizeMax = .ok (some []) ∧
    (Except.ok (some ([] : Bytes)) : Except BlobError (Option Bytes)) ≠
      .ok (some [0, 0, 0, 0, 161]) := by
  exact ⟨rfl, by decide, by decide, by decide, by decide⟩

/-- Witness for C6: the round-trip holds on `[5, 6]` through both facades
over an empty backend, and a legacy blob `[7]` (no marker byte) is
returned raw through the Lz4 facade. -/
theorem blob_round_trip_witness :
    getBlob .none testCodec (putBlob .none testCodec (fun _ => none) [2] [5, 6])
        [2] 0 usizeMax = .ok (some [5, 6]) ∧
    getBlob .lz4 testCodec (putBlob .lz4 testCodec (fun _ => none) [2] [5, 6])
        [2] 0 usizeMax = .ok (some [5, 6]) ∧
    getBlob .lz4 testCodec (fun k => if k = [3] then some [7] else none)
        [3] 0 usizeMax = .ok (some [7]) :=
  ⟨(blob_round_trip testCodec (fun _ => none) [2] [5, 6]).1 (by decide),
    (blob_round_trip testCodec (fun _ => none) [2] [5, 6]).2.1 (by decide) (by decide)
      (by decide),
    (blob_round_trip testCodec (fun k => if k = [3] then some [7] else none) [3]
      [5, 6]).2.2 [7] rfl (by decide) (by decide)⟩

theorem aclFind_updateGrantsFirst (l : List AclGrant) (A : Nat) (g : Finset Nat) (a : Nat) :
    aclFind (updateGrantsFirst l A g) a =
      if a = A then (aclFind l A).map fun _ => { account_id := A, grants := g }
      else aclFind l a := by
  induction l with
  | nil => simp [updateGrantsFirst, aclFind]
  | cons x xs ih =>
    by_cases hx : x.account_id = A
    · simp only [updateGrantsFirst, if_pos hx]
      by_cases ha : a = A
      · subst ha
        simp [aclFind, hx]
      · have hAa : ¬A = a := fun h => ha h.symm
        have hxa : ¬x.account_id = a := fun h => ha ((hx.symm.trans h).symm ▸ rfl)
        simp only [aclFind, if_neg hAa, if_neg ha, if_neg hxa]
    · simp only [updateGrantsFirst, if_neg hx]
      by_cases hxa : x.account_id = a
      · have ha : ¬a = A := fun h => hx (h ▸ hxa)
        simp only [aclFind, if_pos hxa, if_neg ha]
      · simp only [aclFind, if_neg hxa, ih]
        by_cases ha : a = A
        · simp only [if_pos ha]
          have hxA : ¬x.account_id = A := hx
          simp only [aclFind, if_neg hxA]
        · simp only [if_neg ha]

theorem aclFind_filter_ne (l : List AclGrant) (A a : Nat) :
    aclFind (l.filter fun x => x.account_id ≠ A) a =
      if a = A then none else aclFind l a := by
  induction l with
  | nil => simp [aclFind]
  | cons x xs ih =>
    by_cases hx : x.account_id = A
    · rw [List.filter_cons_of_neg (by simp [hx])]
      rw [ih]
      by_cases ha : a = A
      · simp only [if_pos ha]
      · have hxa : ¬x.account_id = a := fun h => ha (hx ▸ h ▸ rfl)
        simp only [if_neg ha, aclFind, if_neg hxa]
    · rw [List.filter_cons_of_pos (by simp [hx])]
      by_cases hxa : x.account_id = a
      · have ha : ¬a = A := fun h => hx (h ▸ hxa)
        simp only [aclFind, if_pos hxa, if_neg ha]
      · simp only [aclFind, if_neg hxa]
        rw [ih]

theorem aclFind_append_single (l : List AclGrant) (p : AclGrant) (a : Nat) :
    aclFind (l ++ [p]) a =
      match aclFind l a with
      | some c => some c
      | none => if p.account_id = a then some p else none := by
  induction l with
  | nil => simp [aclFind]
  | cons x xs ih =>
    by_cases hx : x.account_id = a <;> simp [aclFind, hx, ih]

/-- Counterexample to C7 as stated: `op = Some(true)` on an existing entry
does NOT add all bits of a multi-bit grants bitmap — the code pops a
single grant (`patch.grants.pop().unwrap()`) and inserts only that one.
Starting from `[{20, {0}}]`, patching account 20 with grants `{1, 2}` and
`op = Some(true)` yields `[{20, {0, 1}}]`, not the claimed
`[{20, {0, 1, 2}}]`. -/
theorem acl_patch_add_single_bit_cex :
    aclSetPatch [⟨20, {0}⟩] ⟨20, {1, 2}⟩ (some true) = [⟨20, {0, 1}⟩] ∧
      ([⟨20, ({0, 1} : Finset Nat)⟩] : List AclGrant) ≠ [⟨20, {0, 1, 2}⟩] := by
  exact ⟨by decide, by decide⟩

/-- C7 amended: the patch arm of `acl_set`, characterized per account.
For the patched account: `op = Some(true)` inserts ONE popped bit of
`grants` into an existing entry (and inserts a new entry carrying all of
`grants` when none exists); `op = Some(false)` removes one popped bit,
dropping the entry when it becomes empty (no-op when no entry exists);
`op = Some(_)` with empty `grants` is a no-op; `op = None` replaces (or
inserts) the entry wholesale when `grants` is non-empty and deletes the
entry when `grants` is empty. Every other account's entry is untouched.
For a single-bit `grants`, the popped bit is that bit, so the claim's
add/remove wording holds exactly in the singleton case. -/
theorem acl_set_patch_lookup (acl : List AclGrant) (patch : AclGrant) (op : Option Bool)
    (a : Nat) :
    (aclFind (aclSetPatch acl patch op) a).map AclGrant.grants =
      if a = patch.account_id then
        patchedEntry ((aclFind acl patch.account_id).map AclGrant.grants) patch.grants op
      else (aclFind acl a).map AclGrant.grants := by
  cases op with
  | none =>
    by_cases hg : patch.grants = ∅
    · simp only [aclSetPatch, if_pos hg, patchedEntry]
      rw [aclFind_filter_ne]
      by_cases ha : a = patch.account_id
      · simp [ha, hg]
      · simp [ha]
    · simp only [aclSetPatch, if_neg hg, patchedEntry]
      cases hfind : aclFind acl patch.account_id with
      | some item =>
        rw [aclFind_updateGrantsFirst]
        by_cases ha : a = patch.account_id
        · simp [ha, hfind, hg]
        · simp [ha]
      | none =>
        rw [aclFind_append_single]
        by_cases ha : a = patch.account_id
        · subst ha
          rw [hfind]
          simp [hg]
        · cases hfa : aclFind acl a with
          | some c => simp [hfa, ha]
          | none => simp [hfa, ha, Ne.symm ha]
  | some isSet =>
    by_cases hg : patch.grants = ∅
    · simp only [aclSetPatch, if_pos hg, patchedEntry]
      by_cases ha : a = patch.account_id <;> simp [ha]
    · simp only [aclSetPatch, if_neg hg]
      cases hfind : aclFind acl patch.account_id with
      | some item =>
        cases isSet with
        | true =>
          simp only [if_true]
          rw [aclFind_updateGrantsFirst]
          by_cases ha : a = patch.account_id
          · simp [ha, hfind, patchedEntry, hg]
          · simp [ha]
        | false =>
          simp only [Bool.false_eq_true, if_false]
          by_cases hg' : item.grants.erase (popLow patch.grants) = ∅
          · simp only [if_pos hg']
            rw [aclFind_filter_ne]
            by_cases ha : a = patch.account_id
            · simp [ha, hfind, patchedEntry, hg, hg']
            · rw [if_neg ha, aclFind_updateGrantsFirst, if_neg ha]
              simp [ha]
          · simp only [if_neg hg']
            rw [aclFind_updateGrantsFirst]
            by_cases ha : a = patch.account_id
            · simp [ha, hfind, patchedEntry, hg, hg']
            · simp [ha]
      | none =>
        cases isSet with
        | true =>
          simp only [if_true]
          rw [aclFind_append_single]
          by_cases ha : a = patch.account_id
          · subst ha
            rw [hfind]
            simp [patchedEntry, hg]
          · cases hfa : aclFind acl a with
            | some c => simp [hfa, ha]
            | none => simp [hfa, ha, Ne.symm ha]
        | false =>
          simp only [Bool.false_eq_true, if_false]
          by_cases ha : a = patch.account_id
          · subst ha
            rw [hfind]
            simp [patchedEntry, hg]
          · simp [ha]

theorem aclFind_account {l : List AclGrant} {a : Nat} {c : AclGrant}
    (h : aclFind l a = some c) : c.account_id = a := by
  induction l with
  | nil => simp [aclFind] at h
  | cons x xs ih =>
    by_cases hx : x.account_id = a
    · simp only [aclFind, if_pos hx] at h
      cases h
      exact hx
    · simp only [aclFind, if_neg hx] at h
      exact ih h

theorem aclFind_mem {l : List AclGrant} {a : Nat} {c : AclGrant}
    (h : aclFind l a = some c) : c ∈ l := by
  induction l with
  | nil => simp [aclFind] at h
  | cons x xs ih =>
    by_cases hx : x.account_id = a
    · simp only [aclFind, if_pos hx] at h
      cases h
      exact List.mem_cons_self _ _
    · simp only [aclFind, if_neg hx] at h
      exact List.mem_cons_of_mem _ (ih h)

theorem aclFind_eq_some_of_mem {l : List AclGrant} (hnd : nodupAccounts l)
    {c : AclGrant} (hc : c ∈ l) : aclFind l c.account_id = some c := by
  induction l with
  | nil => simp at hc
  | cons x xs ih =>
    rw [nodupAccounts, List.map_cons, List.nodup_cons] at hnd
    rcases List.mem_cons.mp hc with heq | hmem
    · subst heq
      simp [aclFind]
    · have hxc : ¬x.account_id = c.account_id := by
        intro h
        exact hnd.1 (h ▸ List.mem_map_of_mem AclGrant.account_id hmem)
      simp only [aclFind, if_neg hxc]
      exact ih hnd.2 hmem

/-- C8: for old/new grant lists with at most one entry per account,
`refresh_acls` signals exactly the accounts whose grants differ between
the two lists — entries present in only one list, and entries present in
both with different grant bitmaps; an account with an identical entry in
both lists is not signalled. -/
theorem refresh_acls_signalled (cur chg : List AclGrant)
    (h1 : nodupAccounts cur) (h2 : nodupAccounts chg) (a : Nat) :
    a ∈ refreshSignalled cur chg ↔
      (aclFind cur a).map AclGrant.grants ≠ (aclFind chg a).map AclGrant.grants := by
  unfold refreshSignalled
  simp only [Finset.mem_union, List.mem_toFinset, List.mem_map, List.mem_filter]
  constructor
  · rintro (⟨c, ⟨hcin, hcinv⟩, rfl⟩ | ⟨c, ⟨hcin, hcinv⟩, rfl⟩)
    · rw [aclFind_eq_some_of_mem h1 hcin]
      unfold invalidateFor at hcinv
      cases hf : aclFind chg c.account_id with
      | some x =>
        rw [hf] at hcinv
        simp only [decide_eq_true_eq] at hcinv
        simp only [ne_eq, Option.map_some', Option.some.injEq]
        exact fun h => hcinv h.symm
      | none => simp
    · rw [aclFind_eq_some_of_mem h2 hcin]
      unfold invalidateFor at hcinv
      cases hf : aclFind cur c.account_id with
      | some x =>
        rw [hf] at hcinv
        simp only [decide_eq_true_eq] at hcinv
        simp only [ne_eq, Option.map_some', Option.some.injEq]
        exact fun h => hcinv h
      | none => simp
  · intro hne
    cases hc : aclFind cur a with
    | some c =>
      left
      refine ⟨c, ⟨aclFind_mem hc, ?_⟩, aclFind_account hc⟩
      unfold invalidateFor
      rw [aclFind_account hc]
      cases hf : aclFind chg a with
      | some x =>
        simp only [decide_eq_true_eq]
        rw [hc, hf] at hne
        simp only [ne_eq, Option.map_some', Option.some.injEq] at hne
        exact fun h => hne h.symm
      | none => rfl
    | none =>
      cases hf : aclFind chg a with
      | some c =>
        right
        refine ⟨c, ⟨aclFind_mem hf, ?_⟩, aclFind_account hf⟩
        unfold invalidateFor
        rw [aclFind_account hf, hc]
      | none =>
        rw [hc, hf] at hne
        exact absurd rfl hne

/-- Witness for C8: with old `[{1, {0}}, {2, {1}}]` and new
`[{1, {0}}, {3, {1}}]`, account 2 (deleted) is signalled and account 1
(identical entry) is not. -/
theorem refresh_acls_signalled_witness :
    (2 ∈ refreshSignalled [⟨1, {0}⟩, ⟨2, {1}⟩] [⟨1, {0}⟩, ⟨3, {1}⟩] ↔
      (aclFind [⟨1, {0}⟩, ⟨2, {1}⟩] 2).map AclGrant.grants ≠
        (aclFind [⟨1, {0}⟩, ⟨3, {1}⟩] 2).map AclGrant.grants) ∧
    (1 ∈ refreshSignalled [⟨1, {0}⟩, ⟨2, {1}⟩] [⟨1, {0}⟩, ⟨3, {1}⟩] ↔
      (aclFind [⟨1, {0}⟩, ⟨2, {1}⟩] 1).map AclGrant.grants ≠
        (aclFind [⟨1, {0}⟩, ⟨3, {1}⟩] 1).map AclGrant.grants) :=
  ⟨refresh_acls_signalled [⟨1, {0}⟩, ⟨2, {1}⟩] [⟨1, {0}⟩, ⟨3, {1}⟩]
      (by unfold nodupAccounts; decide) (by unfold nodupAccounts; decide) 2,
    refresh_acls_signalled [⟨1, {0}⟩, ⟨2, {1}⟩] [⟨1, {0}⟩, ⟨3, {1}⟩]
      (by unfold nodupAccounts; decide) (by unfold nodupAccounts; decide) 1⟩

/-- C10: `map_acl_patch` indexes `acl_patch[0]` and `acl_patch[1]`
unconditionally, so every input vector with fewer than two elements dies
on an out-of-bounds panic (modelled as `none`) before any error can be
produced; and the "Invalid ACL value found." `InvalidProperties` error is
produced exactly when both elements exist but are not a
`(Text, UnsignedInt)` pair. -/
theorem map_acl_patch_short_panics (dir : String → DirResult) (l : List JValue) :
    (l.length < 2 → mapAclPatch dir l = none) ∧
    (mapAclPatch dir l = some (.error .invalidAclValue) ↔
      2 ≤ l.length ∧ isNamePair l = false) := by
  constructor
  · intro hl
    rcases l with _ | ⟨v, _ | ⟨v2, t⟩⟩
    · rfl
    · cases v <;> rfl
    · simp only [List.length_cons] at hl
      omega
  · rcases l with _ | ⟨v1, _ | ⟨v2, t⟩⟩
    · simp [mapAclPatch]
    · cases v1 <;> simp [mapAclPatch, isNamePair]
    · have hlen : 2 ≤ (v1 :: v2 :: t).length := by
        simp only [List.length_cons]
        omega
      cases v1 with
      | text s =>
        cases v2 with
        | uint n =>
          constructor
          · intro h
            simp only [mapAclPatch, List.get?_cons_zero, List.get?_cons_succ] at h
            cases hd : dir s <;> rw [hd] at h <;> simp at h
          · rintro ⟨-, h⟩
            exact absurd h
              (by simp [isNamePair, List.get?_cons_zero, List.get?_cons_succ])
        | text s2 => simp [mapAclPatch, isNamePair, hlen]
        | boolean b => simp [mapAclPatch, isNamePair, hlen]
        | null => simp [mapAclPatch, isNamePair, hlen]
      | uint n => cases v2 <;> simp [mapAclPatch, isNamePair, hlen]
      | boolean b => cases v2 <;> simp [mapAclPatch, isNamePair, hlen]
      | null => cases v2 <;> simp [mapAclPatch, isNamePair, hlen]

/-- Witness for C10: the empty patch vector panics (out of bounds), and a
two-element non-(Text, UnsignedInt) vector produces exactly the
"Invalid ACL value found." error. -/
theorem map_acl_patch_short_panics_witness :
    mapAclPatch dirNone [] = none ∧
      mapAclPatch dirNone [.boolean true, .boolean false] =
        some (.error .invalidAclValue) :=
  ⟨(map_acl_patch_short_panics dirNone []).1 (by decide),
    (map_acl_patch_short_panics dirNone [.boolean true, .boolean false]).2.mpr
      (by decide)⟩
